import Mathlib

/-!
nbtscan: the scan engine of `main` (src/nbtscan.c)

A shallow embedding of the timing and de-duplication logic of `main`:

* the RTT sample taken on an accepted reply (lines 725-726),
* the smoothed estimator update (lines 729-733) and its seeds (lines 446-447),
* the retransmission timeout (lines 832-837),
* the send pacing interval (lines 668-679),
* the receive path with the `scanned` list (lines 715-751),
* the retransmission loop (lines 693-848),
* option parsing and the tests of option combinations (lines 462-584),
* the send step of the `select` loop (lines 757-825) and the reset at the end
  of a round (lines 842-847),
* the reads of the host record by the four formatters (lines 201-414).

Modelling conventions.

* C integers are `Int`; a 32-bit `int` result is wrapped explicitly with `wrap32`.
  Integer division is C division, truncating toward zero (`Int.tdiv`).
* `float` and `double` values are rationals (`ℚ`).  The timeout of line 832
  is computed in binary32 arithmetic, each operation rounded to nearest with
  ties to even, and converted to a 32-bit `int` by truncation toward zero; a
  value out of the range of `int` converts to `INT_MIN`, as on x86-64.  The
  estimator update of lines 729-733 is kept exact: its rounding is not
  modelled.
* Dereferencing a null pointer is a fault: the function returns `none`.
-/

namespace Nbtscan

/-! ## Data model -/

/-- The `struct timeval` of the C library: whole seconds and microseconds. -/
structure timeval where
  tv_sec : Int
  tv_usec : Int
deriving DecidableEq, Repr

/-- The fields of `nbname_response_header_t` that `main` reads.
`transaction_id` is a 16-bit unsigned value, `number_of_names` an 8-bit one. -/
structure nbname_response_header where
  transaction_id : Nat
  number_of_names : Nat
deriving DecidableEq, Repr

/-- One entry of the name table: the 16 bytes of `ascii_name` and `rr_flags`. -/
structure nbname where
  ascii_name : List Nat
  rr_flags : Nat
deriving DecidableEq, Repr

/-- The `nbname_response_footer_t` fields printed by the formatters. -/
structure nbname_response_footer where
  adapter_address : List Nat
deriving DecidableEq, Repr

/-- The `struct nb_host_info` returned by `parse_response`: each of the three
pointers may be NULL (`none`), `is_broken` holds the truncated byte count. -/
structure nb_host_info where
  header : Option nbname_response_header
  names : Option (List nbname)
  footer : Option nbname_response_footer
  is_broken : Int
deriving DecidableEq, Repr

/-- The estimator variables of `main`: `srtt` and `rttvar`, in seconds. -/
structure rtt_state where
  srtt : ℚ
  rttvar : ℚ
deriving DecidableEq, Repr

/-- Seeds of lines 446-447: `float srtt = 0; float rttvar = 0.75;`. -/
def rtt_init : rtt_state := ⟨0, 3 / 4⟩

/-! ## RTT sample and estimator update -/

/-- Line 683: `rtt_base = last_send_time.tv_sec`, stored in a `my_uint32_t`. -/
def rtt_base_of (last_send_time : timeval) : Nat :=
  (last_send_time.tv_sec % 4294967296).toNat

/-- Lines 725-726:
`rtt = recv_time.tv_sec + recv_time.tv_usec / 1000000 - rtt_base
       - hostinfo->header->transaction_id / 1000;`
Every operand is an integer, so both divisions are integer divisions; the
integer result is then converted to `float`. -/
def rtt_sample (recv_time : timeval) (rtt_base : Nat) (transaction_id : Nat) : ℚ :=
  ((recv_time.tv_sec + Int.tdiv recv_time.tv_usec 1000000 - (rtt_base : Int)
      - Int.tdiv (transaction_id : Int) 1000 : Int) : ℚ)

/-- Lines 729-733:
`delta = rtt - srtt; srtt += delta / 8; if (delta < 0.0) delta = -delta;
 rttvar += (delta - rttvar) / 4;` -/
def rtt_update (s : rtt_state) (rtt : ℚ) : rtt_state :=
  let delta := rtt - s.srtt
  let srtt := s.srtt + delta / 8
  let delta := if delta < 0 then -delta else delta
  ⟨srtt, s.rttvar + (delta - s.rttvar) / 4⟩

/-! ## Single-precision arithmetic -/

/-- Rounding of a rational to the nearest integer, a tie going to the even
one. -/
def round_half_even (z : ℚ) : Int :=
  let f := ⌊z⌋
  let d := z - (f : ℚ)
  if d < 1 / 2 then f
  else if 1 / 2 < d then f + 1
  else if f % 2 = 0 then f
  else f + 1

/-- The exponent of the last place of the binary32 format at `y`: 23 below the
binary exponent of `y`, and not below -149 (subnormal numbers). -/
def f32_exp (y : ℚ) : Int :=
  max (Int.log 2 |y|) (-126) - 23

/-- The binary32 number nearest to `y` with an unbounded exponent range,
ties to even (the rounding mode of C arithmetic). -/
def f32_nearest (y : ℚ) : ℚ :=
  (round_half_even (y / (2 : ℚ) ^ f32_exp y) : ℚ) * (2 : ℚ) ^ f32_exp y

/-- The largest finite binary32 number, `(2 ^ 24 - 1) * 2 ^ 104`. -/
def f32_max : ℚ := 340282346638528859811704183484516925440

/-- The binary32 result for the exact value `y`: the nearest number, or
`none` when it is beyond the largest finite one (the result is an infinity). -/
def f32_round (y : ℚ) : Option ℚ :=
  if |f32_nearest y| ≤ f32_max then some (f32_nearest y) else none

/-- Addition of two `float` values; `none` is a value that is not finite (an
infinity or a NaN), and it stays not finite through every operation. -/
def f32_add (a b : Option ℚ) : Option ℚ :=
  match a, b with
  | some x, some y => f32_round (x + y)
  | _, _ => none

/-- Multiplication of two `float` values. -/
def f32_mul (a b : Option ℚ) : Option ℚ :=
  match a, b with
  | some x, some y => f32_round (x * y)
  | _, _ => none

/-- Conversion of an `int` to `float`. -/
def int_to_f32 (n : Int) : Option ℚ :=
  f32_round (n : ℚ)

/-! ## Retransmission timeout -/

/-- The integer part of a value: the fractional part is discarded (truncation
toward zero). -/
def trunc_toward_zero (x : ℚ) : Int :=
  if 0 ≤ x then ⌊x⌋ else ⌈x⌉

/-- Conversion of a `float` value to a 32-bit `int`: the integer part when it
fits.  For a value that is not finite or whose integer part does not fit, C
leaves the result undefined; the x86-64 conversion gives `INT_MIN`, which is
the value taken here. -/
def float_to_int (p : Option ℚ) : Int :=
  match p with
  | none => -2147483648
  | some x =>
    let n := trunc_toward_zero x
    if -2147483648 ≤ n ∧ n ≤ 2147483647 then n else -2147483648

/-- The right-hand side of line 832, `(srtt + 4 * rttvar) * (i + 1)`, in
`float` arithmetic: `4` and `i + 1` are converted to `float`, and the product
`4 * rttvar`, the sum and the final product are each rounded to binary32. -/
def rto_product (s : rtt_state) (i : Int) : Option ℚ :=
  f32_mul (f32_add (some s.srtt) (f32_mul (some 4) (some s.rttvar))) (int_to_f32 (i + 1))

/-- Lines 832-837, with `int rto`:
`rto = (srtt + 4 * rttvar) * (i + 1);
 if (rto < 2.0) rto = 2.0; if (rto > 60.0) rto = 60.0;` -/
def rto (s : rtt_state) (i : Int) : Int :=
  let rto := float_to_int (rto_product s i)
  let rto := if (rto : ℚ) < 2 then 2 else rto
  let rto := if (rto : ℚ) > 60 then 60 else rto
  rto

/-- The timeout in the words of the specification: the exact product
`(srtt + 4 * rttvar) * k` clamped to `[2, 60]`, as a rational number of seconds. -/
def spec_next_timeout (s : rtt_state) (k : Int) : ℚ :=
  max 2 (min 60 ((s.srtt + 4 * s.rttvar) * (k : ℚ)))

/-- The RTT in the words of the specification: `T_recv - E - token / 1000`,
with the microsecond part of `T_recv`, as a rational number of seconds. -/
def spec_rtt (recv_time : timeval) (epoch : Nat) (token : Nat) : ℚ :=
  (recv_time.tv_sec : ℚ) + (recv_time.tv_usec : ℚ) / 1000000 - (epoch : ℚ)
    - (token : ℚ) / 1000

/-- The token in the words of the specification: the milliseconds elapsed
between the epoch and the send time, truncated to 16 bits. -/
def spec_token (send_time : timeval) (epoch : Nat) : Nat :=
  (((send_time.tv_sec - (epoch : Int)) * 1000 + send_time.tv_usec / 1000) % 65536).toNat

/-! ## Receive path -/

/-- Modelled from the spec: `insert` of list.c, which is not among the sources.
The scanned list is a set of host-order addresses; insertion is one
check-and-set operation that returns whether the address was newly added. -/
def insert (scanned : List Nat) (content : Nat) : Bool × List Nat :=
  if content ∈ scanned then (false, scanned) else (true, content :: scanned)

/-- Modelled from the spec: `in_list` of list.c, the membership test of the
scanned set. -/
def in_list (scanned : List Nat) (content : Nat) : Bool :=
  decide (content ∈ scanned)

/-- The output flags of `main` that select the formatter (lines 735-745). -/
structure options where
  verbose : Bool
  dump : Bool
  etc_hosts : Bool
  lmhosts : Bool
deriving DecidableEq, Repr

/-- The formatter called for an accepted reply. -/
inductive printer where
  | v_print_hostinfo
  | d_print_hostinfo
  | l_print_hostinfo (l : Bool)
  | print_hostinfo
deriving DecidableEq, Repr

/-- Lines 735-745: the `if (verbose) ... else if (dump) ... else ...` chain. -/
def select_printer (o : options) : printer :=
  if o.verbose then printer.v_print_hostinfo
  else if o.dump then printer.d_print_hostinfo
  else if o.etc_hosts then printer.l_print_hostinfo false
  else if o.lmhosts then printer.l_print_hostinfo true
  else printer.print_hostinfo

/-- One host output: the formatter, the source address and the host record. -/
structure host_output where
  fmt : printer
  addr : Nat
  hostinfo : nb_host_info
deriving DecidableEq, Repr

/-- A decoded reply as the receive path sees it: `recv_time`, the source
address `ntohl (dest_sockaddr.sin_addr.s_addr)` and the record returned by
`parse_response`. -/
structure reply where
  recv_time : timeval
  addr : Nat
  hostinfo : nb_host_info
deriving DecidableEq, Repr

/-- The variables of `main` that the receive path reads and writes. -/
structure scan_state where
  scanned : List Nat
  est : rtt_state
  output : List host_output
deriving DecidableEq, Repr

/-- Lines 722-746, for a non-NULL `hostinfo`.  `hostinfo->header` is
dereferenced without a test, so an absent header is a fault (`none`). -/
def recv_reply (o : options) (rtt_base : Nat) (st : scan_state) (r : reply) :
    Option scan_state :=
  match insert st.scanned r.addr with
  | (true, scanned) =>
    match r.hostinfo.header with
    | none => none
    | some header =>
      let rtt := rtt_sample r.recv_time rtt_base header.transaction_id
      some { scanned := scanned, est := rtt_update st.est rtt,
             output := st.output ++ [⟨select_printer o, r.addr, r.hostinfo⟩] }
  | (false, scanned) => some { st with scanned := scanned }

/-- Lines 714-751: the receive path for one datagram.  `parsed` is the result
of `parse_response`; NULL (`none`) is reported and skipped. -/
def recv_path (o : options) (rtt_base : Nat) (st : scan_state) (recv_time : timeval)
    (addr : Nat) (parsed : Option nb_host_info) : Option scan_state :=
  match parsed with
  | none => some st
  | some hostinfo => recv_reply o rtt_base st ⟨recv_time, addr, hostinfo⟩

/-- The receive path run over a sequence of decoded replies, in arrival order. -/
def recv_all (o : options) (rtt_base : Nat) : scan_state → List reply → Option scan_state
  | st, [] => some st
  | st, r :: rs =>
    match recv_reply o rtt_base st r with
    | none => none
    | some st1 => recv_all o rtt_base st1 rs

/-- The replies of a sequence that are the first from their source address:
the address is neither in `scanned` nor carried by an earlier reply. -/
def first_replies : List Nat → List reply → List reply
  | _, [] => []
  | scanned, r :: rs =>
    if r.addr ∈ scanned then first_replies scanned rs
    else r :: first_replies (r.addr :: scanned) rs

/-- The RTT sample of a reply whose header is present (0 stands for none). -/
def reply_rtt (rtt_base : Nat) (r : reply) : ℚ :=
  match r.hostinfo.header with
  | none => 0
  | some header => rtt_sample r.recv_time rtt_base header.transaction_id

/-! ## Send pacing interval -/

/-- The value of a 32-bit signed `int` after wrap-around. -/
def wrap32 (x : Int) : Int :=
  (x + 2147483648) % 4294967296 - 2147483648

/-- Modelled from the spec: `NBNAME_REQUEST_SIZE` of statusq.h, which is not
among the sources.  The request is a 12-byte header, the length-prefixed
wildcard question name (34 bytes) and two 16-bit fields for type and class. -/
def NBNAME_REQUEST_SIZE : Int := 50

/-- Modelled from the spec: `UDP_HEADER_SIZE` of statusq.h, which is not among
the sources; a UDP header is 8 bytes. -/
def UDP_HEADER_SIZE : Int := 8

/-- Modelled from the spec: `IP_HEADER_SIZE` of statusq.h, which is not among
the sources; an IPv4 header without options is 20 bytes. -/
def IP_HEADER_SIZE : Int := 20

/-- The product `(...) * 8 * 1000000` of lines 671-672 before it is evaluated
in 32-bit `int` arithmetic. -/
def packet_bits_usec (packet_size : Int) : Int :=
  packet_size * 8 * 1000000

/-- Lines 668-679 for a packet of `packet_size` bytes:
`timerclear`, then `tv_usec = packet_size * 8 * 1000000 / bandwidth` when
`bandwidth` is non-zero and `tv_usec = 1` otherwise, then the normalisation of
`tv_usec >= 1000000`. -/
def send_interval_of (packet_size : Int) (bandwidth : Int) : timeval :=
  let tv : timeval := ⟨0, 0⟩
  let tv : timeval :=
    if bandwidth ≠ 0 then
      { tv with tv_usec :=
          Int.tdiv (wrap32 (wrap32 (packet_size * 8) * 1000000)) bandwidth }
    else
      { tv with tv_usec := 1 }
  if tv.tv_usec ≥ 1000000 then
    ⟨Int.tdiv tv.tv_usec 1000000, Int.tmod tv.tv_usec 1000000⟩
  else tv

/-- The `send_interval` of `main`. -/
def send_interval (bandwidth : Int) : timeval :=
  send_interval_of (NBNAME_REQUEST_SIZE + UDP_HEADER_SIZE + IP_HEADER_SIZE) bandwidth

/-! ## Retransmission loop -/

/-- What the loop of lines 693-848 does, in order. -/
inductive scan_event where
  | round (i : Int)
  | timeout (i : Int) (rto : Int)
deriving DecidableEq, Repr

/-- Whether an event is a round. -/
def scan_event.is_round : scan_event → Bool
  | .round _ => true
  | .timeout _ _ => false

/-- Whether an event is the computation and sleep of a retransmission timeout. -/
def scan_event.is_timeout : scan_event → Bool
  | .round _ => false
  | .timeout _ _ => true

/-- Lines 693-848: `for (i = 0; i <= retransmits; i++)`.  Each iteration runs
one round (the `select` loop, given as `round`, which may update the
estimator), leaves by `break` when `i >= retransmits`, and otherwise computes
`rto` and sleeps.  The first argument bounds the number of iterations;
`none` means the bound was reached. -/
def scan_loop (round : Int → rtt_state → rtt_state) (retransmits : Int) :
    Nat → Int → rtt_state → List scan_event → Option (List scan_event)
  | 0, _, _, _ => none
  | fuel + 1, i, est, trace =>
    if i ≤ retransmits then
      let est := round i est
      let trace := trace ++ [scan_event.round i]
      if i ≥ retransmits then some trace
      else
        let trace := trace ++ [scan_event.timeout i (rto est i)]
        scan_loop round retransmits fuel (wrap32 (i + 1)) est trace
    else some trace

/-- The scan of `main`: the loop started at `i = 0` with the seeded estimator. -/
def scan (round : Int → rtt_state → rtt_state) (retransmits : Int) (fuel : Nat) :
    Option (List scan_event) :=
  scan_loop round retransmits fuel 0 rtt_init []

/-- The number of rounds in a trace. -/
def rounds_of (trace : List scan_event) : Nat :=
  (trace.filter scan_event.is_round).length

/-- The number of timeouts computed and slept in a trace. -/
def timeouts_of (trace : List scan_event) : Nat :=
  (trace.filter scan_event.is_timeout).length

/-- Option parsing of `-m` (lines 507-514): `retransmits = atoi (optarg)`, and
a value of 0 leaves through `usage ()` (`none`). -/
def parse_retransmits (atoi_optarg : Int) : Option Int :=
  if atoi_optarg = 0 then none else some atoi_optarg

/-! ## Option parsing (lines 462-584) -/

/-- The digits of `atoi`: decimal digits are accumulated until the first
character that is not a digit. -/
def atoi_digits : List Char → Int → Int
  | [], acc => acc
  | c :: cs, acc =>
    if 48 ≤ c.toNat ∧ c.toNat ≤ 57 then atoi_digits cs (acc * 10 + ((c.toNat : Int) - 48))
    else acc

/-- The sign of `atoi`: one optional `-` (45) or `+` (43) before the digits. -/
def atoi_signed : List Char → Int
  | [] => 0
  | c :: cs =>
    if c.toNat = 45 then - atoi_digits cs 0
    else if c.toNat = 43 then atoi_digits cs 0
    else atoi_digits (c :: cs) 0

/-- White space as `isspace` sees it: space and the characters 9 to 13. -/
def is_space (c : Char) : Bool :=
  c.toNat = 32 || (9 ≤ c.toNat && c.toNat ≤ 13)

/-- The `atoi` of the C library, for values that fit an `int`: leading white
space is skipped, then an optional sign and the longest run of decimal digits
are read; text without a leading number gives 0. -/
def atoi (optarg : String) : Int :=
  atoi_signed (optarg.toList.dropWhile is_space)

/-- One option as `getopt` returns it for `"vrdelqhm:s:t:b:f:"`, with its
argument; `unknown` is the `?` of an unknown option or a missing argument. -/
inductive opt where
  | v
  | r
  | d
  | e
  | l
  | q
  | h
  | m (optarg : String)
  | s (optarg : String)
  | t (optarg : String)
  | b (optarg : String)
  | f (optarg : String)
  | unknown
deriving DecidableEq, Repr

/-- The variables of `main` that option parsing sets, with the diagnostics
that `err_print` has written. -/
structure config where
  timeout : Int
  verbose : Bool
  use137 : Bool
  dump : Bool
  bandwidth : Int
  hr : Bool
  etc_hosts : Bool
  lmhosts : Bool
  quiet : Bool
  sf : Option String
  filename : Option String
  retransmits : Int
  diagnostics : List String
deriving DecidableEq, Repr

/-- The initial values of lines 40 and 421-449: `timeout = 1000`, every flag
0, `bandwidth = 0`, `retransmits = 0`, `sf` and `filename` NULL. -/
def config_init : config :=
  ⟨1000, false, false, false, 0, false, false, false, false, none, none, 0, []⟩

/-- An exit of `main` through `usage ()`: the text printed just before the
usage text, and the status of `exit (2)`. -/
structure usage_exit where
  message : String
  status : Nat
deriving DecidableEq, Repr

/-- Lines 52-103: `usage ()` prints the usage text and calls `exit (2)`. -/
def usage (message : String) : Except usage_exit config :=
  Except.error ⟨message, 2⟩

/-- Function `err_print (msg, quiet)` of errors.c as `main` uses it: the
message is written unless `quiet` is set, and the program goes on. -/
def err_print (msg : String) (c : config) : config :=
  if c.quiet then c else { c with diagnostics := c.diagnostics ++ [msg] }

/-- Lines 463-521: the `switch (ch)` of the option loop, for one option. -/
def parse_option (c : config) : opt → Except usage_exit config
  | opt.v => Except.ok { c with verbose := true }
  | opt.t optarg =>
    let timeout := atoi optarg
    if timeout = 0 then usage ("Bad timeout value: " ++ optarg)
    else Except.ok { c with timeout := timeout }
  | opt.r => Except.ok { c with use137 := true }
  | opt.d => Except.ok { c with dump := true }
  | opt.e => Except.ok { c with etc_hosts := true }
  | opt.l => Except.ok { c with lmhosts := true }
  | opt.q => Except.ok { c with quiet := true }
  | opt.b optarg =>
    let bandwidth := atoi optarg
    let c := { c with bandwidth := bandwidth }
    if bandwidth = 0 then Except.ok (err_print "Bad bandwidth value, ignoring it" c)
    else Except.ok c
  | opt.h => Except.ok { c with hr := true }
  | opt.s optarg => Except.ok { c with sf := some optarg }
  | opt.m optarg =>
    match parse_retransmits (atoi optarg) with
    | none => usage ("Bad number of retransmits: " ++ optarg)
    | some retransmits => Except.ok { c with retransmits := retransmits }
  | opt.f optarg => Except.ok { c with filename := some optarg }
  | opt.unknown => usage "NBTscan version 1.7.1."

/-- Line 462: the `while ((ch = getopt (...)) != -1)` loop over the options of
the command line, in order. -/
def parse_options (c : config) : List opt → Except usage_exit config
  | [] => Except.ok c
  | o :: os =>
    match parse_option c o with
    | Except.error x => Except.error x
    | Except.ok c1 => parse_options c1 os

/-- Lines 523-584: the tests of option combinations, in order; the first one
that holds prints its message and leaves through `usage ()`. -/
def check_options (c : config) : Except usage_exit config :=
  if c.dump && c.verbose then
    usage "Cannot be used with both dump (-d) and verbose (-v) options."
  else if c.dump && c.sf.isSome then
    usage "Cannot be used with both dump (-d) and script-friendly (-s) options."
  else if c.dump && c.lmhosts then
    usage "Cannot be used with both dump (-d) and lmhosts (-l) options."
  else if c.dump && c.etc_hosts then
    usage "Cannot be used with both dump (-d) and /etc/hosts (-e) options."
  else if c.verbose && c.lmhosts then
    usage "Cannot be used with both verbose (-v) and lmhosts (-l) options."
  else if c.verbose && c.etc_hosts then
    usage "Cannot be used with both verbose (-v) and /etc/hosts (-e) options."
  else if c.lmhosts && c.etc_hosts then
    usage "Cannot be used with both lmhosts (-l) and /etc/hosts (-e) options."
  else if c.dump && c.hr then
    usage "Cannot be used with both dump (-d) and human-readable service names (-h) options."
  else if c.hr && !c.verbose then
    usage "Human-readable service names (-h) option cannot be used without verbose (-v) option."
  else Except.ok c

/-- Lines 462-584: option parsing followed by the combination tests.  A
result `Except.ok` goes on to the target and to `socket ()` at line 633; a
result `Except.error` has left `main` before it. -/
def options_phase (opts : List opt) : Except usage_exit config :=
  match parse_options config_init opts with
  | Except.error x => Except.error x
  | Except.ok c => check_options c

/-- The output flags of a configuration, as the receive path uses them. -/
def config.output_flags (c : config) : options :=
  ⟨c.verbose, c.dump, c.etc_hosts, c.lmhosts⟩

/-! ## Send step (lines 757-825) and round reset (lines 842-847) -/

/-- The `timersub (a, b, res)` of sys/time.h: `a - b`, normalised so that
`tv_usec` is not negative. -/
def timersub (a b : timeval) : timeval :=
  let sec := a.tv_sec - b.tv_sec
  let usec := a.tv_usec - b.tv_usec
  if usec < 0 then ⟨sec - 1, usec + 1000000⟩ else ⟨sec, usec⟩

/-- The `timercmp (a, b, >=)` of sys/time.h: microseconds decide when the
seconds are equal, the seconds otherwise. -/
def timercmp_ge (a b : timeval) : Bool :=
  if a.tv_sec = b.tv_sec then decide (a.tv_usec ≥ b.tv_usec)
  else decide (a.tv_sec ≥ b.tv_sec)

/-- The `struct ip_range` of range.h: first and last address, host order. -/
structure ip_range where
  start_ip : Nat
  end_ip : Nat
deriving DecidableEq, Repr

/-- Modelled from the spec: `next_address` of range.c, which is not among the
sources.  The sequence is arithmetic: the start value when there is no
previous address, then the previous address plus one up to the end value, then
exhausted (`none`). -/
def next_address (range : ip_range) (prev_addr : Option Nat) : Option Nat :=
  match prev_addr with
  | none => some range.start_ip
  | some pa => if pa < range.end_ip then some (pa + 1) else none

/-- One query handed to `send_query`, with the `current_time` of its step. -/
structure query where
  sent_at : timeval
  addr : Nat
deriving DecidableEq, Repr

/-- The variables of `main` that the send step reads and writes.
`targetlist` is `none` when a range is scanned; for a file it holds the lines
not yet read, each line being the result of `inet_aton` (`none` for a bad
address).  `sent` lists the queries sent so far. -/
structure send_state where
  last_send_time : timeval
  more_to_send : Bool
  prev_in_addr : Option Nat
  targetlist : Option (List (Option Nat))
  select_timeout : timeval
  sent : List query
deriving DecidableEq, Repr

/-- The clock and socket readings of one pass of the `select` loop:
`FD_ISSET (sock, &fdsw)`, the `current_time` of line 758, and the time that
`gettimeofday (&last_send_time, NULL)` of line 808 would read. -/
structure tick where
  writable : Bool
  current_time : timeval
  send_time : timeval
deriving DecidableEq, Repr

/-- Lines 787-789 and 815-817: `select_timeout` from `timeout` milliseconds. -/
def timeout_to_timeval (timeout : Int) : timeval :=
  ⟨Int.tdiv timeout 1000, Int.tmod timeout 1000 * 1000⟩

/-- Lines 757-820: one pass of the send step.  `send_ok` compares the time
since `last_send_time` with `send_interval`.  With a file the next line is
read and, for a good address not yet scanned, queried; the end of the file
clears `more_to_send`.  With a range `next_address` gives the next address,
which is queried when not yet scanned, and `last_send_time` is updated; the
end of the range clears `more_to_send`.  A read error of the file is not
modelled. -/
def send_step (range : ip_range) (send_interval : timeval) (timeout : Int)
    (scanned : List Nat) (s : send_state) (tk : tick) : send_state :=
  let diff_time := timersub tk.current_time s.last_send_time
  let send_ok := timercmp_ge diff_time send_interval
  if s.more_to_send && tk.writable && send_ok then
    match s.targetlist with
    | some [] =>
      { s with more_to_send := false, select_timeout := timeout_to_timeval timeout }
    | some (none :: rest) => { s with targetlist := some rest }
    | some (some next_in_addr :: rest) =>
      if !in_list scanned next_in_addr then
        { s with targetlist := some rest,
                 sent := s.sent ++ [⟨tk.current_time, next_in_addr⟩] }
      else { s with targetlist := some rest }
    | none =>
      match next_address range s.prev_in_addr with
      | some next_in_addr =>
        let sent :=
          if !in_list scanned next_in_addr then
            s.sent ++ [⟨tk.current_time, next_in_addr⟩]
          else s.sent
        { s with sent := sent, prev_in_addr := some next_in_addr,
                 last_send_time := tk.send_time }
      | none =>
        { s with more_to_send := false, select_timeout := timeout_to_timeval timeout }
  else s

/-- The send steps of one round, one for each pass of the `select` loop. -/
def send_steps (range : ip_range) (send_interval : timeval) (timeout : Int)
    (scanned : List Nat) : send_state → List tick → send_state
  | s, [] => s
  | s, tk :: tks =>
    send_steps range send_interval timeout scanned
      (send_step range send_interval timeout scanned s tk) tks

/-- Lines 842-843, at the end of a round that is not the last:
`prev_in_addr = NULL; more_to_send = 1;`.  Nothing else of the send state is
touched; `targetlist` in particular is not rewound. -/
def reset_round (s : send_state) : send_state :=
  { s with prev_in_addr := none, more_to_send := true }

/-- The send state when the loop starts (lines 433, 449, 653-654, 681):
`last_send_time` is the time read at line 681. -/
def send_init (start : timeval) (targetlist : Option (List (Option Nat))) : send_state :=
  ⟨start, true, none, targetlist, ⟨60, 0⟩, []⟩

/-- The microseconds between two send times. -/
def usec_between (a b : timeval) : Int :=
  (b.tv_sec - a.tv_sec) * 1000000 + (b.tv_usec - a.tv_usec)

/-! ## Output formatters (lines 201-414) -/

/-- A read of a part of the host record by a formatter. -/
inductive access where
  | header_fields
  | number_of_names
  | name_entry (i : Nat)
  | footer_fields
deriving DecidableEq, Repr

/-- The loop `for (i = 0; i < hostinfo->header->number_of_names; i++)` with
its reads of `hostinfo->names[i]`, from index `i` with `k` entries to go; an
index past the end of the array is a fault. -/
def names_loop (names : List nbname) : Nat → Nat → Option (List access)
  | _, 0 => some [access.number_of_names]
  | i, k + 1 =>
    match names.get? i with
    | none => none
    | some _ =>
      (names_loop names (i + 1) k).map
        (fun rest => access.number_of_names :: access.name_entry i :: rest)

/-- The reads of the footer under `if (hostinfo->footer)`. -/
def footer_reads (hostinfo : nb_host_info) : List access :=
  match hostinfo.footer with
  | some _ => [access.footer_fields]
  | none => []

/-- Lines 201-232: `d_print_hostinfo`.  The header is printed under
`if (hostinfo->header)`; the name loop runs under `if (hostinfo->names)` alone
and reads `hostinfo->header->number_of_names`, a fault (`none`) when the
header is absent. -/
def d_print_hostinfo (hostinfo : nb_host_info) : Option (List access) :=
  let header_reads : List access :=
    match hostinfo.header with
    | some _ => [access.header_fields]
    | none => []
  match hostinfo.names with
  | some names =>
    match hostinfo.header with
    | none => none
    | some header =>
      match names_loop names 0 header.number_of_names with
      | none => none
      | some name_reads => some (header_reads ++ name_reads ++ footer_reads hostinfo)
  | none => some (header_reads ++ footer_reads hostinfo)

/-- Lines 234-309: `v_print_hostinfo`.  The name loop runs under
`if (hostinfo->header && hostinfo->names)`, the adapter address is read under
`if (hostinfo->footer)`; `sf` and `hr` change the text only. -/
def v_print_hostinfo (hostinfo : nb_host_info) : Option (List access) :=
  match hostinfo.header, hostinfo.names with
  | some header, some names =>
    match names_loop names 0 header.number_of_names with
    | none => none
    | some name_reads => some (name_reads ++ footer_reads hostinfo)
  | _, _ => some (footer_reads hostinfo)

/-- Lines 311-379: `print_hostinfo`.  The name loop runs under
`if (hostinfo->header && hostinfo->names)`, the adapter address is read under
`if (hostinfo->footer)`; `sf` changes the text only. -/
def print_hostinfo (hostinfo : nb_host_info) : Option (List access) :=
  match hostinfo.header, hostinfo.names with
  | some header, some names =>
    match names_loop names 0 header.number_of_names with
    | none => none
    | some name_reads => some (name_reads ++ footer_reads hostinfo)
  | _, _ => some (footer_reads hostinfo)

/-- Lines 384-414: `l_print_hostinfo`.  The name loop runs under
`if (hostinfo->header && hostinfo->names)`; the footer is not read; `l`
changes the text only. -/
def l_print_hostinfo (hostinfo : nb_host_info) : Option (List access) :=
  match hostinfo.header, hostinfo.names with
  | some header, some names => names_loop names 0 header.number_of_names
  | _, _ => some []

/-- A complete host record carrying transaction id `token`. -/
def sample_hostinfo (token : Nat) : nb_host_info :=
  ⟨some ⟨token, 0⟩, some [], none, 0⟩

/-- Three replies: host 10, host 10 again, and host 11. -/
def sample_replies : List reply :=
  [⟨⟨104, 500000⟩, 10, sample_hostinfo 250⟩,
   ⟨⟨105, 0⟩, 10, sample_hostinfo 250⟩,
   ⟨⟨106, 0⟩, 11, sample_hostinfo 1500⟩]

/-- The state of `main` before the first reply: nothing scanned, the estimator
at its seeds, nothing printed. -/
def sample_start : scan_state := ⟨[], rtt_init, []⟩

/-- No output flag set: the default tabular output. -/
def sample_options : options := ⟨false, false, false, false⟩

theorem recv_reply_dup (o : options) (rtt_base : Nat) (st : scan_state) (r : reply)
    (h : r.addr ∈ st.scanned) : recv_reply o rtt_base st r = some st := by
  simp [recv_reply, insert, h]

theorem recv_reply_new (o : options) (rtt_base : Nat) (st : scan_state) (r : reply)
    (h : r.addr ∉ st.scanned) (hh : r.hostinfo.header ≠ none) :
    recv_reply o rtt_base st r =
      some ⟨r.addr :: st.scanned, rtt_update st.est (reply_rtt rtt_base r),
            st.output ++ [⟨select_printer o, r.addr, r.hostinfo⟩]⟩ := by
  cases hd : r.hostinfo.header with
  | none => exact absurd hd hh
  | some header => simp [recv_reply, insert, h, hd, reply_rtt]

theorem first_replies_count_old (a : Nat) (rs : List reply) :
    ∀ scanned : List Nat, a ∈ scanned →
      ((first_replies scanned rs).map reply.addr).count a = 0 := by
  induction rs with
  | nil => intro scanned _; simp [first_replies]
  | cons r rs ih =>
    intro scanned ha
    by_cases hr : r.addr ∈ scanned
    · simp only [first_replies, hr, if_true]
      exact ih scanned ha
    · have hne : a ≠ r.addr := fun e => hr (e ▸ ha)
      simp only [first_replies, hr, if_false, List.map_cons]
      rw [List.count_cons_of_ne hne]
      exact ih (r.addr :: scanned) (List.mem_cons_of_mem _ ha)

theorem first_replies_count_absent (a : Nat) (rs : List reply) :
    ∀ scanned : List Nat, a ∉ rs.map reply.addr →
      ((first_replies scanned rs).map reply.addr).count a = 0 := by
  induction rs with
  | nil => intro scanned _; simp [first_replies]
  | cons r rs ih =>
    intro scanned ha
    simp only [List.map_cons, List.mem_cons, not_or] at ha
    by_cases hr : r.addr ∈ scanned
    · simp only [first_replies, hr, if_true]
      exact ih scanned ha.2
    · have hne : a ≠ r.addr := ha.1
      simp only [first_replies, hr, if_false, List.map_cons]
      rw [List.count_cons_of_ne hne]
      exact ih (r.addr :: scanned) ha.2

theorem first_replies_count_new (a : Nat) (rs : List reply) :
    ∀ scanned : List Nat, a ∉ scanned → a ∈ rs.map reply.addr →
      ((first_replies scanned rs).map reply.addr).count a = 1 := by
  induction rs with
  | nil => intro scanned _ h; simp at h
  | cons r rs ih =>
    intro scanned hs ha
    by_cases hr : r.addr ∈ scanned
    · have hne : a ≠ r.addr := fun e => hs (e ▸ hr)
      simp only [first_replies, hr, if_true]
      simp only [List.map_cons, List.mem_cons] at ha
      exact ih scanned hs (ha.resolve_left hne)
    · simp only [first_replies, hr, if_false, List.map_cons]
      by_cases e : r.addr = a
      · subst e
        rw [List.count_cons_self,
          first_replies_count_old r.addr rs (r.addr :: scanned) (List.mem_cons_self _ _)]
      · rw [List.count_cons_of_ne (fun e2 => e e2.symm)]
        simp only [List.map_cons, List.mem_cons] at ha
        have ha2 := ha.resolve_left (fun e2 => e e2.symm)
        apply ih (r.addr :: scanned) _ ha2
        simp only [List.mem_cons, not_or]
        exact ⟨fun e2 => e e2.symm, hs⟩

theorem recv_all_first_replies (o : options) (rtt_base : Nat) (rs : List reply) :
    ∀ st : scan_state, (∀ r ∈ rs, r.hostinfo.header ≠ none) →
      ∃ st1, recv_all o rtt_base st rs = some st1 ∧
        st1.output = st.output ++ (first_replies st.scanned rs).map
          (fun r => (⟨select_printer o, r.addr, r.hostinfo⟩ : host_output)) ∧
        st1.est = ((first_replies st.scanned rs).map (reply_rtt rtt_base)).foldl
          rtt_update st.est := by
  induction rs with
  | nil => intro st _; exact ⟨st, rfl, by simp [first_replies], by simp [first_replies]⟩
  | cons r rs ih =>
    intro st hdec
    have hrs : ∀ x ∈ rs, x.hostinfo.header ≠ none :=
      fun x hx => hdec x (List.mem_cons_of_mem _ hx)
    by_cases hr : r.addr ∈ st.scanned
    · obtain ⟨st1, h1, h2, h3⟩ := ih st hrs
      refine ⟨st1, ?_, ?_, ?_⟩
      · simp only [recv_all, recv_reply_dup o rtt_base st r hr]; exact h1
      · simp only [first_replies, hr, if_true]; exact h2
      · simp only [first_replies, hr, if_true]; exact h3
    · have hh := hdec r (List.mem_cons_self _ _)
      obtain ⟨st1, h1, h2, h3⟩ := ih
        ⟨r.addr :: st.scanned, rtt_update st.est (reply_rtt rtt_base r),
          st.output ++ [⟨select_printer o, r.addr, r.hostinfo⟩]⟩ hrs
      refine ⟨st1, ?_, ?_, ?_⟩
      · simp only [recv_all, recv_reply_new o rtt_base st r hr hh]; exact h1
      · simp only [first_replies, hr, if_false]
        rw [h2]; simp
      · simp only [first_replies, hr, if_false]
        rw [h3]; simp

/-! ## Lemmas on single-precision rounding -/

theorem round_half_even_floor_le (z : ℚ) : ⌊z⌋ ≤ round_half_even z := by
  unfold round_half_even
  simp only
  split_ifs <;> omega

theorem round_half_even_le_floor_succ (z : ℚ) : round_half_even z ≤ ⌊z⌋ + 1 := by
  unfold round_half_even
  simp only
  split_ifs <;> omega

theorem round_half_even_intCast (n : Int) : round_half_even (n : ℚ) = n := by
  unfold round_half_even
  simp

theorem int_le_round_half_even {n : Int} {z : ℚ} (h : (n : ℚ) ≤ z) :
    n ≤ round_half_even z :=
  le_trans (Int.le_floor.mpr h) (round_half_even_floor_le z)

theorem round_half_even_le_int {n : Int} {z : ℚ} (h : z ≤ (n : ℚ)) :
    round_half_even z ≤ n := by
  have hf : ⌊z⌋ ≤ n := by
    have := Int.floor_le_floor h
    simpa using this
  rcases lt_or_eq_of_le hf with hlt | heq
  · have := round_half_even_le_floor_succ z
    omega
  · have hz : z = (n : ℚ) := le_antisymm h (by rw [← heq]; exact Int.floor_le z)
    rw [hz, round_half_even_intCast]

theorem round_half_even_mono {z1 z2 : ℚ} (h : z1 ≤ z2) :
    round_half_even z1 ≤ round_half_even z2 := by
  have hf : ⌊z1⌋ ≤ ⌊z2⌋ := Int.floor_le_floor h
  rcases lt_or_eq_of_le hf with hlt | heq
  · have h1 := round_half_even_le_floor_succ z1
    have h2 := round_half_even_floor_le z2
    omega
  · unfold round_half_even
    simp only
    rw [← heq]
    have hd : z1 - (⌊z1⌋ : ℚ) ≤ z2 - (⌊z1⌋ : ℚ) := by linarith
    split_ifs <;> first | omega | (exfalso; linarith)

theorem two_zpow_pos (e : Int) : (0 : ℚ) < (2 : ℚ) ^ e := by positivity

theorem f32_exp_ge (y : ℚ) : -149 ≤ f32_exp y := by
  unfold f32_exp
  have := le_max_right (Int.log 2 |y|) (-126)
  omega

theorem f32_exp_mono {y1 y2 : ℚ} (h0 : 0 < y1) (h : y1 ≤ y2) : f32_exp y1 ≤ f32_exp y2 := by
  unfold f32_exp
  have h2 : 0 < y2 := lt_of_lt_of_le h0 h
  rw [abs_of_pos h0, abs_of_pos h2]
  have := Int.log_mono_right (b := 2) h0 h
  have := max_le_max this (le_refl (-126 : Int))
  omega

theorem f32_nearest_zero : f32_nearest 0 = 0 := by
  unfold f32_nearest
  simp [round_half_even]

theorem f32_nearest_nonneg {y : ℚ} (h : 0 ≤ y) : 0 ≤ f32_nearest y := by
  unfold f32_nearest
  have hp := two_zpow_pos (f32_exp y)
  have : (0 : Int) ≤ round_half_even (y / (2 : ℚ) ^ f32_exp y) :=
    int_le_round_half_even (by push_cast; exact div_nonneg h (le_of_lt hp))
  have hq : (0 : ℚ) ≤ (round_half_even (y / (2 : ℚ) ^ f32_exp y) : ℚ) := by exact_mod_cast this
  exact mul_nonneg hq (le_of_lt hp)

theorem f32_nearest_nonpos {y : ℚ} (h : y ≤ 0) : f32_nearest y ≤ 0 := by
  unfold f32_nearest
  have hp := two_zpow_pos (f32_exp y)
  have : round_half_even (y / (2 : ℚ) ^ f32_exp y) ≤ (0 : Int) :=
    round_half_even_le_int (by push_cast; exact div_nonpos_of_nonpos_of_nonneg h (le_of_lt hp))
  have hq : (round_half_even (y / (2 : ℚ) ^ f32_exp y) : ℚ) ≤ 0 := by exact_mod_cast this
  exact mul_nonpos_of_nonpos_of_nonneg hq (le_of_lt hp)

theorem f32_nearest_mono {y1 y2 : ℚ} (h0 : 0 ≤ y1) (h : y1 ≤ y2) :
    f32_nearest y1 ≤ f32_nearest y2 := by
  rcases eq_or_lt_of_le h0 with hz | hpos
  · rw [← hz, f32_nearest_zero]
    exact f32_nearest_nonneg (le_trans h0 h)
  · have h2 : 0 < y2 := lt_of_lt_of_le hpos h
    have he := f32_exp_mono hpos h
    rcases eq_or_lt_of_le he with heq | hlt
    · unfold f32_nearest
      rw [heq]
      have hp := two_zpow_pos (f32_exp y2)
      have hm : round_half_even (y1 / (2 : ℚ) ^ f32_exp y2)
          ≤ round_half_even (y2 / (2 : ℚ) ^ f32_exp y2) :=
        round_half_even_mono (div_le_div_of_nonneg_right h (le_of_lt hp))
      have hq : (round_half_even (y1 / (2 : ℚ) ^ f32_exp y2) : ℚ)
          ≤ (round_half_even (y2 / (2 : ℚ) ^ f32_exp y2) : ℚ) := by exact_mod_cast hm
      exact mul_le_mul_of_nonneg_right hq (le_of_lt hp)
    · -- different binades: the two results are separated by a power of two
      have hp1 := two_zpow_pos (f32_exp y1)
      have hp2 := two_zpow_pos (f32_exp y2)
      have hge1 := f32_exp_ge y1
      -- upper bound for the smaller one
      have hlog1 : Int.log 2 |y1| ≤ f32_exp y1 + 23 := by
        unfold f32_exp
        have := le_max_left (Int.log 2 |y1|) (-126)
        omega
      have hy1 : y1 < (2 : ℚ) ^ (f32_exp y1 + 24) := by
        have hlt1 := Int.lt_zpow_succ_log_self (b := 2) (by norm_num) y1
        rw [abs_of_pos hpos] at hlog1
        have hle : ((2 : ℕ) : ℚ) ^ (Int.log 2 y1 + 1) ≤ ((2 : ℕ) : ℚ) ^ (f32_exp y1 + 24) :=
          zpow_le_zpow_right₀ (by norm_num) (by omega)
        have := lt_of_lt_of_le hlt1 hle
        simpa using this
      have hup : f32_nearest y1 ≤ (2 : ℚ) ^ (f32_exp y1 + 24) := by
        unfold f32_nearest
        have hz : y1 / (2 : ℚ) ^ f32_exp y1 ≤ ((16777216 : Int) : ℚ) := by
          rw [div_le_iff₀ hp1]
          have e : (2 : ℚ) ^ (f32_exp y1 + 24) = ((16777216 : Int) : ℚ) * (2 : ℚ) ^ f32_exp y1 := by
            rw [zpow_add₀ (by norm_num)]
            norm_num
            ring
          rw [← e]
          exact le_of_lt hy1
        have hr := round_half_even_le_int hz
        have hq : (round_half_even (y1 / (2 : ℚ) ^ f32_exp y1) : ℚ) ≤ ((16777216 : Int) : ℚ) := by
          exact_mod_cast hr
        have e : (2 : ℚ) ^ (f32_exp y1 + 24) = ((16777216 : Int) : ℚ) * (2 : ℚ) ^ f32_exp y1 := by
          rw [zpow_add₀ (by norm_num)]
          norm_num
          ring
        rw [e]
        exact mul_le_mul_of_nonneg_right hq (le_of_lt hp1)
      -- lower bound for the larger one
      have hmax : f32_exp y2 = Int.log 2 |y2| - 23 := by
        unfold f32_exp at hlt hge1 ⊢
        have : max (Int.log 2 |y2|) (-126) = Int.log 2 |y2| := by
          apply max_eq_left
          by_contra hc
          have : max (Int.log 2 |y2|) (-126) = -126 := max_eq_right (by omega)
          omega
        rw [this]
      have hy2 : (2 : ℚ) ^ (f32_exp y2 + 23) ≤ y2 := by
        have := Int.zpow_log_le_self (b := 2) (by norm_num) h2
        rw [abs_of_pos h2] at hmax
        have e : f32_exp y2 + 23 = Int.log 2 y2 := by omega
        rw [e]
        simpa using this
      have hlow : (2 : ℚ) ^ (f32_exp y2 + 23) ≤ f32_nearest y2 := by
        unfold f32_nearest
        have e : (2 : ℚ) ^ (f32_exp y2 + 23) = ((8388608 : Int) : ℚ) * (2 : ℚ) ^ f32_exp y2 := by
          rw [zpow_add₀ (by norm_num)]
          norm_num
          ring
        have hz : ((8388608 : Int) : ℚ) ≤ y2 / (2 : ℚ) ^ f32_exp y2 := by
          rw [le_div_iff₀ hp2, ← e]
          exact hy2
        have hr := int_le_round_half_even hz
        have hq : ((8388608 : Int) : ℚ) ≤ (round_half_even (y2 / (2 : ℚ) ^ f32_exp y2) : ℚ) := by
          exact_mod_cast hr
        rw [e]
        exact mul_le_mul_of_nonneg_right hq (le_of_lt hp2)
      have hmid : (2 : ℚ) ^ (f32_exp y1 + 24) ≤ (2 : ℚ) ^ (f32_exp y2 + 23) :=
        zpow_le_zpow_right₀ (by norm_num) (by omega)
      exact le_trans hup (le_trans hmid hlow)

theorem f32_exp_of_small {y : ℚ} {e : Int} (hy : y ≠ 0) (he : -149 ≤ e)
    (hlt : |y| < (2 : ℚ) ^ (e + 24)) : f32_exp y ≤ e := by
  unfold f32_exp
  have hpos : 0 < |y| := abs_pos.mpr hy
  have h2 : |y| < ((2 : ℕ) : ℚ) ^ (e + 24) := by simpa using hlt
  have := (Int.lt_zpow_iff_log_lt (b := 2) (by norm_num) hpos).mp h2
  have hm : max (Int.log 2 |y|) (-126) ≤ e + 23 := max_le (by omega) (by omega)
  omega

theorem f32_nearest_exact (y : ℚ) (m e : Int) (hm : |m| < 16777216) (he : -149 ≤ e)
    (hy : y = (m : ℚ) * (2 : ℚ) ^ e) : f32_nearest y = y := by
  by_cases h0 : y = 0
  · rw [h0, f32_nearest_zero]
  · have hp := two_zpow_pos e
    have habs : |y| < (2 : ℚ) ^ (e + 24) := by
      rw [hy, abs_mul, abs_of_pos hp, zpow_add₀ (by norm_num), mul_comm ((2 : ℚ) ^ e)]
      have : |(m : ℚ)| < (2 : ℚ) ^ (24 : Int) := by
        have : ((|m| : Int) : ℚ) < ((16777216 : Int) : ℚ) := by exact_mod_cast hm
        rw [Int.cast_abs] at this
        norm_num at this ⊢
        exact this
      exact mul_lt_mul_of_pos_right this hp
    have hle := f32_exp_of_small h0 he habs
    unfold f32_nearest
    generalize f32_exp y = E at hle
    obtain ⟨n, hn⟩ := Int.eq_ofNat_of_zero_le (by omega : 0 ≤ e - E)
    have hsplit : (2 : ℚ) ^ e = (2 : ℚ) ^ n * (2 : ℚ) ^ E := by
      have : e = (n : Int) + E := by omega
      rw [this, zpow_add₀ (by norm_num), zpow_natCast]
    have hpe := two_zpow_pos E
    have hz : y / (2 : ℚ) ^ E = ((m * 2 ^ n : Int) : ℚ) := by
      rw [div_eq_iff (ne_of_gt hpe), hy, hsplit]
      push_cast
      ring
    rw [hz, round_half_even_intCast, hy, hsplit]
    push_cast
    ring

theorem f32_round_exact (y : ℚ) (m e : Int) (hm : |m| < 16777216) (he : -149 ≤ e)
    (he2 : e ≤ 104) (hy : y = (m : ℚ) * (2 : ℚ) ^ e) : f32_round y = some y := by
  unfold f32_round
  rw [f32_nearest_exact y m e hm he hy]
  have hp := two_zpow_pos e
  have hb : |y| ≤ f32_max := by
    rw [hy, abs_mul, abs_of_pos hp]
    have h1 : |(m : ℚ)| ≤ 16777215 := by
      have : |m| ≤ 16777215 := by omega
      have : ((|m| : Int) : ℚ) ≤ ((16777215 : Int) : ℚ) := by exact_mod_cast this
      rw [Int.cast_abs] at this
      simpa using this
    have h2 : (2 : ℚ) ^ e ≤ (2 : ℚ) ^ (104 : Int) := zpow_le_zpow_right₀ (by norm_num) he2
    have h3 : (16777215 : ℚ) * (2 : ℚ) ^ (104 : Int) = f32_max := by
      unfold f32_max
      norm_num
    rw [← h3]
    exact mul_le_mul h1 h2 (le_of_lt hp) (by norm_num)
  simp [hb]

theorem f32_round_mono {y1 y2 v : ℚ} (h0 : 0 ≤ y1) (h : y1 ≤ y2)
    (hv : f32_round y2 = some v) :
    ∃ u, f32_round y1 = some u ∧ 0 ≤ u ∧ u ≤ v := by
  unfold f32_round at hv ⊢
  split_ifs at hv with hb
  cases hv
  have hn1 := f32_nearest_nonneg h0
  have hm := f32_nearest_mono h0 h
  have hb1 : |f32_nearest y1| ≤ f32_max := by
    rw [abs_of_nonneg hn1]
    exact le_trans hm (le_trans (le_abs_self _) hb)
  exact ⟨f32_nearest y1, by simp [hb1], hn1, hm⟩

theorem f32_round_nonpos {y v : ℚ} (h : y ≤ 0) (hv : f32_round y = some v) : v ≤ 0 := by
  unfold f32_round at hv
  split_ifs at hv
  cases hv
  exact f32_nearest_nonpos h

theorem f32_exp_of_log {y : ℚ} {l : Int} (h1 : (2 : ℚ) ^ l ≤ |y|)
    (h2 : |y| < (2 : ℚ) ^ (l + 1)) : f32_exp y = max l (-126) - 23 := by
  unfold f32_exp
  have hpos : 0 < |y| := lt_of_lt_of_le (two_zpow_pos l) h1
  have a1 : ((2 : ℕ) : ℚ) ^ l ≤ |y| := by simpa using h1
  have a2 : |y| < ((2 : ℕ) : ℚ) ^ (l + 1) := by simpa using h2
  have b1 := (Int.zpow_le_iff_le_log (b := 2) (by norm_num) hpos).mp a1
  have b2 := (Int.lt_zpow_iff_log_lt (b := 2) (by norm_num) hpos).mp a2
  have : Int.log 2 |y| = l := by omega
  rw [this]

/-! ## Lemmas on the retransmission timeout -/

theorem trunc_toward_zero_mono {x y : ℚ} (h : x ≤ y) :
    trunc_toward_zero x ≤ trunc_toward_zero y := by
  unfold trunc_toward_zero
  by_cases hx : 0 ≤ x
  · have hy : 0 ≤ y := le_trans hx h
    simp only [hx, hy, if_true]
    exact Int.floor_le_floor h
  · by_cases hy : 0 ≤ y
    · simp only [hx, hy, if_true, if_false]
      have h1 : ⌈x⌉ ≤ 0 := Int.ceil_le.mpr (by push_cast; exact le_of_lt (not_le.mp hx))
      have h2 : (0 : Int) ≤ ⌊y⌋ := Int.le_floor.mpr (by push_cast; exact hy)
      exact le_trans h1 h2
    · simp only [hx, hy, if_false]
      exact Int.ceil_le_ceil h

theorem trunc_toward_zero_nonpos {x : ℚ} (h : x ≤ 0) : trunc_toward_zero x ≤ 0 := by
  have := trunc_toward_zero_mono h
  simpa [trunc_toward_zero] using this

theorem trunc_toward_zero_nonneg {x : ℚ} (h : 0 ≤ x) : 0 ≤ trunc_toward_zero x := by
  have := trunc_toward_zero_mono h
  simpa [trunc_toward_zero] using this

theorem clamp_trunc_eq_floor (x : ℚ) :
    max 2 (min 60 (trunc_toward_zero x)) = ⌊max 2 (min 60 x)⌋ := by
  symm
  rw [Int.floor_eq_iff]
  unfold trunc_toward_zero
  by_cases hx : 0 ≤ x
  · simp only [hx, if_true]
    by_cases h2 : x < 2
    · have hf : ⌊x⌋ < 2 := Int.floor_lt.mpr (by exact_mod_cast h2)
      have e1 : max 2 (min 60 ⌊x⌋) = 2 := by omega
      have e2 : max 2 (min 60 x) = 2 := by
        rw [max_eq_left]; exact le_trans (min_le_right _ _) (le_of_lt h2)
      rw [e1, e2]; norm_num
    · have h2 : 2 ≤ x := not_lt.mp h2
      have hf2 : 2 ≤ ⌊x⌋ := Int.le_floor.mpr (by exact_mod_cast h2)
      by_cases h60 : x < 60
      · have hf : ⌊x⌋ < 60 := Int.floor_lt.mpr (by exact_mod_cast h60)
        have e1 : max 2 (min 60 ⌊x⌋) = ⌊x⌋ := by omega
        have e2 : max 2 (min 60 x) = x := by
          rw [min_eq_right (le_of_lt h60), max_eq_right h2]
        rw [e1, e2]
        exact ⟨Int.floor_le x, Int.lt_floor_add_one x⟩
      · have h60 : 60 ≤ x := not_lt.mp h60
        have hf : 60 ≤ ⌊x⌋ := Int.le_floor.mpr (by exact_mod_cast h60)
        have e1 : max 2 (min 60 ⌊x⌋) = 60 := by omega
        have e2 : max 2 (min 60 x) = 60 := by
          rw [min_eq_left h60]; norm_num
        rw [e1, e2]; norm_num
  · simp only [hx, if_false]
    have hx0 : x ≤ 0 := le_of_lt (not_le.mp hx)
    have hc : ⌈x⌉ ≤ 0 := Int.ceil_le.mpr (by exact_mod_cast hx0)
    have e1 : max 2 (min 60 ⌈x⌉) = 2 := by omega
    have e2 : max 2 (min 60 x) = 2 := by
      rw [max_eq_left]; exact le_trans (min_le_right _ _) (by linarith)
    rw [e1, e2]; norm_num

theorem float_to_int_of_fits {v : ℚ} (hlo : -2147483649 < v) (hhi : v < 2147483648) :
    float_to_int (some v) = trunc_toward_zero v := by
  have h1 : -2147483648 ≤ trunc_toward_zero v := by
    unfold trunc_toward_zero
    by_cases hv : 0 ≤ v
    · simp only [hv, if_true]
      have : (0 : Int) ≤ ⌊v⌋ := Int.le_floor.mpr (by exact_mod_cast hv)
      omega
    · simp only [hv, if_false]
      have : (-2147483649 : Int) < ⌈v⌉ := Int.lt_ceil.mpr (by exact_mod_cast hlo)
      omega
  have h2 : trunc_toward_zero v ≤ 2147483647 := by
    unfold trunc_toward_zero
    by_cases hv : 0 ≤ v
    · simp only [hv, if_true]
      have : ⌊v⌋ < (2147483648 : Int) := Int.floor_lt.mpr (by exact_mod_cast hhi)
      omega
    · simp only [hv, if_false]
      have : ⌈v⌉ ≤ (0 : Int) :=
        Int.ceil_le.mpr (by push_cast; exact le_of_lt (not_le.mp hv))
      omega
  simp [float_to_int, h1, h2]

theorem float_to_int_nonpos {v : ℚ} (h : v ≤ 0) : float_to_int (some v) ≤ 0 := by
  have ht := trunc_toward_zero_nonpos h
  simp only [float_to_int]
  split_ifs
  · exact ht
  · decide

theorem rto_eq_clamp (s : rtt_state) (i : Int) :
    rto s i = max 2 (min 60 (float_to_int (rto_product s i))) := by
  unfold rto
  generalize float_to_int (rto_product s i) = n
  simp only
  by_cases h1 : n < 2
  · have h1q : (n : ℚ) < 2 := by exact_mod_cast h1
    simp only [h1q, if_true]
    norm_num
    omega
  · have h1q : ¬ (n : ℚ) < 2 := by
      intro h; exact h1 (by exact_mod_cast h)
    simp only [h1q, if_false]
    by_cases h2 : n > 60
    · have h2q : (n : ℚ) > 60 := by exact_mod_cast h2
      simp only [h2q, if_true]
      omega
    · have h2q : ¬ (n : ℚ) > 60 := by
        intro h; exact h2 (by exact_mod_cast h)
      simp only [h2q, if_false]
      omega

theorem rto_product_eq (s : rtt_state) (i : Int) (a x k p : ℚ)
    (ha : f32_round (4 * s.rttvar) = some a) (hx : f32_round (s.srtt + a) = some x)
    (hk : f32_round ((i + 1 : Int) : ℚ) = some k) (hp : f32_round (x * k) = some p) :
    rto_product s i = some p := by
  simp only [rto_product, f32_mul, f32_add, int_to_f32, ha, hx, hk, hp]

theorem rto_of_fits (s : rtt_state) (i : Int) (v : ℚ) (hv : rto_product s i = some v)
    (hlo : -2147483649 < v) (hhi : v < 2147483648) :
    rto s i = ⌊max 2 (min 60 v)⌋ := by
  rw [rto_eq_clamp, hv, float_to_int_of_fits hlo hhi, clamp_trunc_eq_floor]

theorem f32_round_small_int (n : Int) (h : |n| < 16777216) :
    f32_round (n : ℚ) = some (n : ℚ) :=
  f32_round_exact (n : ℚ) n 0 h (by decide) (by decide) (by simp)

theorem f32_round_eq (y r : ℚ) (m e : Int) (hm : |m| < 16777216) (he : -149 ≤ e)
    (he2 : e ≤ 104) (hr : r = (m : ℚ) * (2 : ℚ) ^ e) (hy : y = r) :
    f32_round y = some r := by
  rw [hy]
  exact f32_round_exact r m e hm he he2 hr

theorem rto_product_of_sum (s : rtt_state) (i : Int) (a x : ℚ)
    (ha : f32_round (4 * s.rttvar) = some a) (hx : f32_round (s.srtt + a) = some x) :
    rto_product s i = f32_mul (some x) (f32_round ((i + 1 : Int) : ℚ)) := by
  simp only [rto_product, f32_mul, f32_add, int_to_f32, ha, hx]

theorem f32_mul_eq_some (a b : Option ℚ) (p : ℚ) (h : f32_mul a b = some p) :
    ∃ x y, a = some x ∧ b = some y ∧ f32_round (x * y) = some p := by
  cases a with
  | none => simp [f32_mul] at h
  | some x =>
    cases b with
    | none => simp [f32_mul] at h
    | some y => exact ⟨x, y, rfl, rfl, h⟩

theorem f32_add_eq_some (a b : Option ℚ) (p : ℚ) (h : f32_add a b = some p) :
    ∃ x y, a = some x ∧ b = some y ∧ f32_round (x + y) = some p := by
  cases a with
  | none => simp [f32_add] at h
  | some x =>
    cases b with
    | none => simp [f32_add] at h
    | some y => exact ⟨x, y, rfl, rfl, h⟩

theorem rto_product_some (s : rtt_state) (i : Int) (p : ℚ) (hp : rto_product s i = some p) :
    ∃ a x k, f32_round (4 * s.rttvar) = some a ∧ f32_round (s.srtt + a) = some x ∧
      f32_round ((i + 1 : Int) : ℚ) = some k ∧ f32_round (x * k) = some p := by
  unfold rto_product int_to_f32 at hp
  obtain ⟨x, k, hsum, hk, hprod⟩ := f32_mul_eq_some _ _ p hp
  obtain ⟨s1, a, hs1, ha, hx⟩ := f32_add_eq_some _ _ x hsum
  obtain ⟨c4, r, hc4, hr, ha2⟩ := f32_mul_eq_some _ _ a ha
  cases hs1
  cases hc4
  cases hr
  exact ⟨a, x, k, ha2, hx, hk, hprod⟩

/-! ## Lemmas on the pacing interval -/

theorem wrap32_of_fits {x : Int} (h1 : -2147483648 ≤ x) (h2 : x < 2147483648) :
    wrap32 x = x := by
  unfold wrap32
  omega

theorem send_interval_of_pos (packet_size bandwidth : Int) (hp : 0 ≤ packet_size)
    (hfit : packet_bits_usec packet_size < 2147483648) (hb : 0 < bandwidth) :
    (send_interval_of packet_size bandwidth).tv_sec * 1000000
        + (send_interval_of packet_size bandwidth).tv_usec
      = packet_bits_usec packet_size / bandwidth ∧
    0 ≤ (send_interval_of packet_size bandwidth).tv_usec ∧
    (send_interval_of packet_size bandwidth).tv_usec < 1000000 := by
  unfold packet_bits_usec at hfit
  have w1 : wrap32 (packet_size * 8) = packet_size * 8 :=
    wrap32_of_fits (by omega) (by omega)
  have w2 : wrap32 (packet_size * 8 * 1000000) = packet_size * 8 * 1000000 :=
    wrap32_of_fits (by omega) hfit
  have hN : (0 : Int) ≤ packet_size * 8 * 1000000 := by omega
  have hq : (0 : Int) ≤ packet_size * 8 * 1000000 / bandwidth :=
    Int.ediv_nonneg hN (le_of_lt hb)
  have hne : bandwidth ≠ 0 := ne_of_gt hb
  unfold send_interval_of packet_bits_usec
  simp only [hne, ne_eq, not_false_eq_true, if_true, w1, w2,
    Int.tdiv_eq_ediv hN (le_of_lt hb)]
  generalize packet_size * 8 * 1000000 / bandwidth = q at hq
  by_cases hbig : q ≥ 1000000
  · simp only [hbig, if_true]
    rw [Int.tdiv_eq_ediv hq (by norm_num), Int.tmod_eq_emod hq (by norm_num)]
    omega
  · simp only [hbig, if_false]
    omega

/-! ## Lemmas on the retransmission loop -/

theorem rounds_of_append (a b : List scan_event) :
    rounds_of (a ++ b) = rounds_of a + rounds_of b := by
  simp [rounds_of, List.filter_append]

theorem timeouts_of_append (a b : List scan_event) :
    timeouts_of (a ++ b) = timeouts_of a + timeouts_of b := by
  simp [timeouts_of, List.filter_append]

theorem scan_loop_run (round : Int → rtt_state → rtt_state) (r : Int)
    (hr : r ≤ 2147483647) :
    ∀ (n extra : Nat) (i : Int) (est : rtt_state) (trace : List scan_event),
      0 ≤ i → i + n = r →
      ∃ tr, scan_loop round r (n + 1 + extra) i est trace = some (trace ++ tr) ∧
        rounds_of tr = n + 1 ∧ timeouts_of tr = n ∧
        tr.getLast? = some (scan_event.round r) := by
  intro n
  induction n with
  | zero =>
    intro extra i est trace _ hi
    have hir : i = r := by simpa using hi
    subst hir
    refine ⟨[scan_event.round i], ?_, by simp [rounds_of, scan_event.is_round],
      by simp [timeouts_of, scan_event.is_timeout], by simp⟩
    have hf : 0 + 1 + extra = extra + 1 := by omega
    rw [hf]
    simp [scan_loop]
  | succ n ih =>
    intro extra i est trace h0 hi
    have hlt : i < r := by push_cast at hi; omega
    have hw : wrap32 (i + 1) = i + 1 := wrap32_of_fits (by omega) (by omega)
    obtain ⟨tr, h1, h2, h3, h4⟩ := ih extra (i + 1) (round i est)
      (trace ++ [scan_event.round i] ++ [scan_event.timeout i (rto (round i est) i)])
      (by omega) (by push_cast at hi; omega)
    refine ⟨[scan_event.round i, scan_event.timeout i (rto (round i est) i)] ++ tr,
      ?_, ?_, ?_, ?_⟩
    · have hf : n + 1 + 1 + extra = (n + 1 + extra) + 1 := by omega
      rw [hf]
      simp only [scan_loop, le_of_lt hlt, if_true, ge_iff_le, not_le.mpr hlt, if_false, hw]
      rw [h1]
      simp
    · rw [rounds_of_append, h2]
      simp [rounds_of, scan_event.is_round]
      omega
    · rw [timeouts_of_append, h3]
      simp [timeouts_of, scan_event.is_timeout]
      omega
    · rw [List.getLast?_append, h4]
      simp

/-! ## The RTT sample (C1) -/

theorem rtt_sample_whole_seconds (recv_time : timeval) (rtt_base transaction_id : Nat)
    (h0 : 0 ≤ recv_time.tv_usec) (h1 : recv_time.tv_usec < 1000000) :
    rtt_sample recv_time rtt_base transaction_id
      = ((recv_time.tv_sec - (rtt_base : Int) - ((transaction_id / 1000 : Nat) : Int) : Int) : ℚ) := by
  unfold rtt_sample
  have e1 : Int.tdiv recv_time.tv_usec 1000000 = 0 := by
    rw [Int.tdiv_eq_ediv h0 (by norm_num)]
    exact Int.ediv_eq_zero_of_lt h0 h1
  have e2 : Int.tdiv (transaction_id : Int) 1000 = ((transaction_id / 1000 : Nat) : Int) := by
    rw [Int.tdiv_eq_ediv (Int.natCast_nonneg _) (by norm_num)]
    norm_cast
  rw [e1, e2]
  simp

/-- C1 fails on the code.  With the epoch at 100 s, a query sent at 100.25 s
carries the token 250; for its reply received at 100.75 s the receive path of
`main` computes an RTT sample of 0 s, while `T_recv - E - token / 1000` is
half a second: both divisions of lines 725-726 are integer divisions. -/
theorem C1_rtt_sample_drops_fractions :
    spec_token ⟨100, 250000⟩ 100 = 250 ∧
    rtt_sample ⟨100, 750000⟩ 100 250 = 0 ∧
    spec_rtt ⟨100, 750000⟩ 100 250 = 1 / 2 ∧
    rtt_sample ⟨100, 750000⟩ 100 250 ≠ spec_rtt ⟨100, 750000⟩ 100 250 := by
  refine ⟨by decide, ?_, ?_, ?_⟩
  · rw [rtt_sample_whole_seconds _ _ _ (by decide) (by decide)]
    norm_num
  · norm_num [spec_rtt]
  · rw [rtt_sample_whole_seconds _ _ _ (by decide) (by decide)]
    norm_num [spec_rtt]

/-! ## The receive path (C2, C3) -/

/-- C2 fails on the code.  For a datagram from an address not yet scanned that
decodes to a host record whose header is absent, the receive path of `main`
reads `hostinfo->header->transaction_id` through the NULL header: it faults
instead of completing with the estimator unchanged. -/
theorem C2_absent_header_faults (o : options) (rtt_base : Nat) (est : rtt_state)
    (output : List host_output) (recv_time : timeval) (addr : Nat)
    (names : Option (List nbname)) (footer : Option nbname_response_footer)
    (is_broken : Int) :
    recv_path o rtt_base ⟨[], est, output⟩ recv_time addr
      (some ⟨none, names, footer, is_broken⟩) = none := by
  simp [recv_path, recv_reply, insert]

/-- C3.  A reply whose source address is already in the scanned set leaves the
whole state unchanged (no output, same `srtt` and `rttvar`); a reply with a
decoded header whose source address is new appends exactly one host output and
applies exactly one estimator update.  Hence over any sequence of replies with
decoded headers the receive path completes, the outputs added are those of the
first reply of each new source address, the estimator is updated once for each
of them, and each source address is reported exactly once. -/
theorem C3_each_source_reported_and_timed_once (o : options) (rtt_base : Nat)
    (st : scan_state) (rs : List reply)
    (hdec : ∀ r ∈ rs, r.hostinfo.header ≠ none) :
    (∀ r : reply, r.addr ∈ st.scanned → recv_reply o rtt_base st r = some st) ∧
    (∀ r : reply, r.addr ∉ st.scanned → r.hostinfo.header ≠ none →
      recv_reply o rtt_base st r =
        some ⟨r.addr :: st.scanned, rtt_update st.est (reply_rtt rtt_base r),
              st.output ++ [⟨select_printer o, r.addr, r.hostinfo⟩]⟩) ∧
    ∃ st1, recv_all o rtt_base st rs = some st1 ∧
      st1.output = st.output ++ (first_replies st.scanned rs).map
        (fun r => (⟨select_printer o, r.addr, r.hostinfo⟩ : host_output)) ∧
      st1.est = ((first_replies st.scanned rs).map (reply_rtt rtt_base)).foldl
        rtt_update st.est ∧
      (∀ a, a ∉ st.scanned → a ∈ rs.map reply.addr →
        (st1.output.map host_output.addr).count a
            = (st.output.map host_output.addr).count a + 1 ∧
        ((first_replies st.scanned rs).map reply.addr).count a = 1) ∧
      (∀ a, a ∈ st.scanned ∨ a ∉ rs.map reply.addr →
        (st1.output.map host_output.addr).count a
            = (st.output.map host_output.addr).count a ∧
        ((first_replies st.scanned rs).map reply.addr).count a = 0) := by
  refine ⟨fun r h => recv_reply_dup o rtt_base st r h,
    fun r h hh => recv_reply_new o rtt_base st r h hh, ?_⟩
  obtain ⟨st1, h1, h2, h3⟩ := recv_all_first_replies o rtt_base rs st hdec
  have hmap : st1.output.map host_output.addr
      = st.output.map host_output.addr
        ++ (first_replies st.scanned rs).map reply.addr := by
    rw [h2, List.map_append, List.map_map]
    rfl
  refine ⟨st1, h1, h2, h3, ?_, ?_⟩
  · intro a ha hin
    have hc := first_replies_count_new a rs st.scanned ha hin
    exact ⟨by rw [hmap, List.count_append, hc], hc⟩
  · intro a ha
    have hc : ((first_replies st.scanned rs).map reply.addr).count a = 0 := by
      cases ha with
      | inl h => exact first_replies_count_old a rs st.scanned h
      | inr h => exact first_replies_count_absent a rs st.scanned h
    exact ⟨by rw [hmap, List.count_append, hc]; rfl, hc⟩

/-- Witness of C3 on three replies, the second a duplicate of the first. -/
theorem C3_each_source_reported_and_timed_once_witness :
    (∀ r ∈ sample_replies, r.hostinfo.header ≠ none) ∧
    ∃ st1, recv_all sample_options 100 sample_start sample_replies = some st1 ∧
      (st1.output.map host_output.addr).count 10 = 1 ∧
      (st1.output.map host_output.addr).count 11 = 1 ∧
      st1.est = (((first_replies [] sample_replies).map (reply_rtt 100)).foldl
        rtt_update rtt_init) := by
  have hdec : ∀ r ∈ sample_replies, r.hostinfo.header ≠ none := by
    intro r hr
    simp only [sample_replies, List.mem_cons, List.mem_singleton, List.not_mem_nil,
      or_false] at hr
    rcases hr with h | h | h <;> subst h <;> simp [sample_hostinfo]
  obtain ⟨_, _, st1, h1, _, h3, h4, _⟩ :=
    C3_each_source_reported_and_timed_once sample_options 100 sample_start
      sample_replies hdec
  refine ⟨hdec, st1, h1, ?_, ?_, h3⟩
  · have := (h4 10 (by simp [sample_start]) (by simp [sample_replies])).1
    simpa [sample_start] using this
  · have := (h4 11 (by simp [sample_start]) (by simp [sample_replies])).1
    simpa [sample_start] using this

/-! ## The retransmission timeout and the estimator (C4 - C7) -/

theorem rto_product_after_one_sample (i : Int) (h : |i + 1| < 2048) :
    rto_product ⟨1 / 2, 25 / 16⟩ i = some (27 / 4 * ((i + 1 : Int) : ℚ)) := by
  have hi : |27 * (i + 1)| < 16777216 := by
    rw [abs_lt] at h ⊢
    constructor <;> omega
  refine rto_product_eq _ i (25 / 4) (27 / 4) ((i + 1 : Int) : ℚ) _ ?_ ?_ ?_ ?_
  · exact f32_round_eq _ _ 25 (-2) (by decide) (by decide) (by decide) (by norm_num)
      (by norm_num)
  · exact f32_round_eq _ _ 27 (-2) (by decide) (by decide) (by decide) (by norm_num)
      (by norm_num)
  · exact f32_round_small_int (i + 1) (by omega)
  · exact f32_round_eq _ _ (27 * (i + 1)) (-2) hi (by decide) (by decide)
      (by push_cast; norm_num; ring) rfl

theorem rto_after_one_sample_first_round : rto ⟨1 / 2, 25 / 16⟩ 0 = 6 := by
  have hp := rto_product_after_one_sample 0 (by decide)
  rw [rto_of_fits _ 0 _ hp (by norm_num) (by norm_num)]
  norm_num

/-- The sum of line 832 is rounded to binary32 before the conversion: for
`srtt = 10525387 / 2 ^ 23` and `rttvar = 12048717 / 2 ^ 23` the exact sum
`58720255 / 2 ^ 23` is below 7 and rounds to 7, so `rto` is 7. -/
theorem rto_rounds_up_in_single_precision :
    rto ⟨10525387 / 8388608, 12048717 / 8388608⟩ 0 = 7 ∧
    spec_next_timeout ⟨10525387 / 8388608, 12048717 / 8388608⟩ (0 + 1)
      = 58720255 / 8388608 := by
  have hsum : f32_round (58720255 / 8388608) = some 7 := by
    have he : f32_exp (58720255 / 8388608) = -21 := by
      rw [f32_exp_of_log (l := 2) (by norm_num [abs_of_pos]) (by norm_num [abs_of_pos])]
      decide
    have hn : f32_nearest (58720255 / 8388608) = 7 := by
      unfold f32_nearest
      rw [he]
      norm_num [round_half_even]
    unfold f32_round
    rw [hn]
    norm_num [f32_max]
  have hx : f32_round ((10525387 / 8388608 : ℚ) + 12048717 / 2097152) = some 7 := by
    rw [show (10525387 / 8388608 : ℚ) + 12048717 / 2097152 = 58720255 / 8388608 from by
      norm_num]
    exact hsum
  have hp : rto_product ⟨10525387 / 8388608, 12048717 / 8388608⟩ 0 = some 7 := by
    refine rto_product_eq _ 0 (12048717 / 2097152) 7 1 7 ?_ hx ?_ ?_
    · exact f32_round_eq _ _ 12048717 (-21) (by decide) (by decide) (by decide)
        (by norm_num) (by norm_num)
    · exact f32_round_eq _ _ 1 0 (by decide) (by decide) (by decide) (by norm_num)
        (by norm_num)
    · exact f32_round_eq _ _ 7 0 (by decide) (by decide) (by decide) (by norm_num)
        (by norm_num)
  constructor
  · rw [rto_of_fits _ 0 _ hp (by norm_num) (by norm_num)]
    norm_num
  · norm_num [spec_next_timeout]

/-- C4 as stated fails on the code.  After one sample of 4 s the estimator is
`srtt = 1/2`, `rttvar = 25/16`; for the first retransmission the exact clamped
product is 27/4 s, while the `int rto` of `main` is 6. -/
theorem C4_rto_not_exact :
    rtt_update rtt_init 4 = ⟨1 / 2, 25 / 16⟩ ∧
    spec_next_timeout (rtt_update rtt_init 4) (0 + 1) = 27 / 4 ∧
    rto (rtt_update rtt_init 4) 0 = 6 ∧
    (rto (rtt_update rtt_init 4) 0 : ℚ) ≠ spec_next_timeout (rtt_update rtt_init 4) (0 + 1) := by
  have e : rtt_update rtt_init 4 = ⟨1 / 2, 25 / 16⟩ := by
    norm_num [rtt_update, rtt_init]
  have e1 : spec_next_timeout ⟨1 / 2, 25 / 16⟩ (0 + 1) = 27 / 4 := by
    norm_num [spec_next_timeout]
  have e2 : rto ⟨1 / 2, 25 / 16⟩ 0 = 6 := rto_after_one_sample_first_round
  rw [e]
  refine ⟨rfl, e1, e2, ?_⟩
  rw [e1, e2]
  norm_num

/-- C4 as amended.  For every estimator state and every loop counter `i`
(round index `k = i + 1`) for which the product `(srtt + 4 * rttvar) * k`
computed in single precision is a finite value `v` whose integer part fits a
32-bit `int`, the `rto` of `main` is a whole number of seconds: `v` clamped to
`[2, 60]` with its fractional part discarded.  When single precision
represents the product exactly, this is the exact value clamped to `[2, 60]`
and rounded down, at most the exact clamped value and less than one second
below it. -/
theorem C4_rto_is_truncated_clamp (s : rtt_state) (i : Int) (v : ℚ)
    (hv : rto_product s i = some v) (hlo : -2147483649 < v) (hhi : v < 2147483648) :
    rto s i = ⌊max 2 (min 60 v)⌋ ∧
    (v = (s.srtt + 4 * s.rttvar) * ((i + 1 : Int) : ℚ) →
      rto s i = ⌊spec_next_timeout s (i + 1)⌋ ∧
      (rto s i : ℚ) ≤ spec_next_timeout s (i + 1) ∧
      spec_next_timeout s (i + 1) < (rto s i : ℚ) + 1) := by
  have h := rto_of_fits s i v hv hlo hhi
  refine ⟨h, ?_⟩
  intro hexact
  have hs : spec_next_timeout s (i + 1) = max 2 (min 60 v) := by
    rw [hexact]
    rfl
  rw [h, hs]
  exact ⟨rfl, Int.floor_le _, Int.lt_floor_add_one _⟩

/-- Witness of C4 on the state after one sample of 4 s: 6 for 6.75. -/
theorem C4_rto_is_truncated_clamp_witness :
    rto_product ⟨1 / 2, 25 / 16⟩ 0 = some (27 / 4 * ((0 + 1 : Int) : ℚ)) ∧
    rto ⟨1 / 2, 25 / 16⟩ 0 = ⌊max 2 (min 60 (27 / 4 * ((0 + 1 : Int) : ℚ)))⌋ ∧
    rto ⟨1 / 2, 25 / 16⟩ 0 = ⌊spec_next_timeout ⟨1 / 2, 25 / 16⟩ (0 + 1)⌋ :=
  ⟨rto_product_after_one_sample 0 (by decide),
    (C4_rto_is_truncated_clamp ⟨1 / 2, 25 / 16⟩ 0 (27 / 4 * ((0 + 1 : Int) : ℚ))
      (rto_product_after_one_sample 0 (by decide)) (by norm_num) (by norm_num)).1,
    ((C4_rto_is_truncated_clamp ⟨1 / 2, 25 / 16⟩ 0 (27 / 4 * ((0 + 1 : Int) : ℚ))
      (rto_product_after_one_sample 0 (by decide)) (by norm_num) (by norm_num)).2
      (by norm_num)).1⟩

/-- C5.  For every estimator state, negative `srtt` included, and every round
index, the `rto` of `main` lies between 2 and 60 seconds inclusive. -/
theorem C5_rto_in_range (s : rtt_state) (i : Int) :
    2 ≤ rto s i ∧ rto s i ≤ 60 := by
  rw [rto_eq_clamp]
  omega

/-- C6 as stated fails on the code.  For `srtt = 1500000000`, `rttvar = 0` the
product of the first round, 1500000000, fits an `int` and is clamped to 60;
the product of the second round, 3000000000, does not fit, the conversion
gives `INT_MIN` and `rto` is 2: the timeout decreases from round 0 to round
1. -/
theorem C6_rto_drops_when_product_overflows :
    rto ⟨1500000000, 0⟩ 0 = 60 ∧ rto ⟨1500000000, 0⟩ 1 = 2 ∧
    ¬ (rto ⟨1500000000, 0⟩ 0 ≤ rto ⟨1500000000, 0⟩ 1) := by
  have hz : f32_round (4 * (⟨1500000000, 0⟩ : rtt_state).rttvar) = some 0 :=
    f32_round_eq _ _ 0 0 (by decide) (by decide) (by decide) (by norm_num) (by norm_num)
  have hs : f32_round ((⟨1500000000, 0⟩ : rtt_state).srtt + 0) = some 1500000000 :=
    f32_round_eq _ _ 5859375 8 (by decide) (by decide) (by decide) (by norm_num)
      (by norm_num)
  have h1 : f32_round (((0 + 1 : Int) : ℚ)) = some 1 :=
    f32_round_eq _ _ 1 0 (by decide) (by decide) (by decide) (by norm_num) (by norm_num)
  have h2 : f32_round (((1 + 1 : Int) : ℚ)) = some 2 :=
    f32_round_eq _ _ 2 0 (by decide) (by decide) (by decide) (by norm_num) (by norm_num)
  have hp0 : rto_product ⟨1500000000, 0⟩ 0 = some 1500000000 :=
    rto_product_eq _ 0 0 1500000000 1 1500000000 hz hs h1
      (f32_round_eq _ _ 5859375 8 (by decide) (by decide) (by decide) (by norm_num)
        (by norm_num))
  have hp1 : rto_product ⟨1500000000, 0⟩ 1 = some 3000000000 :=
    rto_product_eq _ 1 0 1500000000 2 3000000000 hz hs h2
      (f32_round_eq _ _ 5859375 9 (by decide) (by decide) (by decide) (by norm_num)
        (by norm_num))
  have e0 : rto ⟨1500000000, 0⟩ 0 = 60 := by
    rw [rto_of_fits _ 0 _ hp0 (by norm_num) (by norm_num)]
    norm_num
  have e1 : rto ⟨1500000000, 0⟩ 1 = 2 := by
    rw [rto_eq_clamp, hp1]
    have ht : trunc_toward_zero 3000000000 = 3000000000 := by
      norm_num [trunc_toward_zero]
    simp [float_to_int, ht]
  refine ⟨e0, e1, ?_⟩
  rw [e0, e1]
  decide

/-- C6 as amended.  For a fixed estimator state, also one where
`srtt + 4 * rttvar` is negative, and loop counters `j <= k` (multiplier
`j + 1 >= 0`) such that the single-precision product of round `k` is finite
and below `2 ^ 31`, the range of `int`, the `rto` of `main` for round `j` is
at most the one for round `k`. -/
theorem C6_rto_monotone (s : rtt_state) (j k : Int) (v : ℚ) (hj : -1 ≤ j) (hjk : j ≤ k)
    (hv : rto_product s k = some v) (hfit : v < 2147483648) :
    rto s j ≤ rto s k := by
  obtain ⟨a, x, kv, hA, hX, hK, hP⟩ := rto_product_some s k v hv
  rw [rto_eq_clamp, rto_eq_clamp, hv, rto_product_of_sum s j a x hA hX]
  have hj0 : (0 : ℚ) ≤ ((j + 1 : Int) : ℚ) := by
    exact_mod_cast (by omega : (0 : Int) ≤ j + 1)
  have hjk1 : ((j + 1 : Int) : ℚ) ≤ ((k + 1 : Int) : ℚ) := by
    exact_mod_cast (by omega : j + 1 ≤ k + 1)
  obtain ⟨jv, hJ, hjv0, hjvk⟩ := f32_round_mono hj0 hjk1 hK
  rw [hJ]
  simp only [f32_mul]
  by_cases hx0 : 0 ≤ x
  · obtain ⟨u, hU, hu0, huv⟩ :=
      f32_round_mono (mul_nonneg hx0 hjv0) (mul_le_mul_of_nonneg_left hjvk hx0) hP
    rw [hU, float_to_int_of_fits (by linarith) (by linarith),
      float_to_int_of_fits (by linarith) hfit]
    have := trunc_toward_zero_mono huv
    omega
  · have hneg : x * jv ≤ 0 :=
      mul_nonpos_of_nonpos_of_nonneg (le_of_lt (not_le.mp hx0)) hjv0
    cases hU : f32_round (x * jv) with
    | none =>
      simp only [float_to_int]
      omega
    | some u =>
      have := float_to_int_nonpos (f32_round_nonpos hneg hU)
      omega

/-- Witness of C6 on the state after one sample of 4 s, rounds 0 and 5. -/
theorem C6_rto_monotone_witness :
    rto_product ⟨1 / 2, 25 / 16⟩ 5 = some (27 / 4 * ((5 + 1 : Int) : ℚ)) ∧
    rto ⟨1 / 2, 25 / 16⟩ 0 ≤ rto ⟨1 / 2, 25 / 16⟩ 5 :=
  ⟨rto_product_after_one_sample 5 (by decide),
    C6_rto_monotone ⟨1 / 2, 25 / 16⟩ 0 5 (27 / 4 * ((5 + 1 : Int) : ℚ)) (by decide)
      (by decide) (rto_product_after_one_sample 5 (by decide)) (by norm_num)⟩

/-- C8 fails on the code.  With no bandwidth cap (`bandwidth = 0`) `main` sets
`send_interval.tv_usec = 1`, one microsecond, whatever the packet size: the
interval is `(0, 1)` and not the millisecond `(0, 1000)` that the comment on
the same line announces. -/
theorem C8_uncapped_interval_is_one_microsecond :
    (∀ packet_size : Int, send_interval_of packet_size 0 = ⟨0, 1⟩) ∧
    send_interval 0 = ⟨0, 1⟩ ∧
    send_interval 0 ≠ ⟨0, 1000⟩ := by
  have h : ∀ packet_size : Int, send_interval_of packet_size 0 = ⟨0, 1⟩ := by
    intro packet_size
    simp [send_interval_of]
  refine ⟨h, h _, ?_⟩
  rw [send_interval, h]
  decide

/-- C9.  For every positive bandwidth cap `b`, with
`P = NBNAME_REQUEST_SIZE + UDP_HEADER_SIZE + IP_HEADER_SIZE = 78` bytes, the
product `P * 8 * 1000000 = 624000000` fits a signed 32-bit `int` (wrapping
leaves it unchanged), and the normalised `send_interval` satisfies
`tv_sec * 1000000 + tv_usec = floor (P * 8 * 1000000 / b)` with
`0 <= tv_usec < 1000000`. -/
theorem C9_capped_interval (b : Int) (hb : 0 < b) :
    NBNAME_REQUEST_SIZE + UDP_HEADER_SIZE + IP_HEADER_SIZE = 78 ∧
    packet_bits_usec (NBNAME_REQUEST_SIZE + UDP_HEADER_SIZE + IP_HEADER_SIZE) < 2147483648 ∧
    wrap32 (wrap32 ((NBNAME_REQUEST_SIZE + UDP_HEADER_SIZE + IP_HEADER_SIZE) * 8) * 1000000)
      = packet_bits_usec (NBNAME_REQUEST_SIZE + UDP_HEADER_SIZE + IP_HEADER_SIZE) ∧
    (send_interval b).tv_sec * 1000000 + (send_interval b).tv_usec
      = ⌊((packet_bits_usec (NBNAME_REQUEST_SIZE + UDP_HEADER_SIZE + IP_HEADER_SIZE) : Int) : ℚ)
          / (b : ℚ)⌋ ∧
    0 ≤ (send_interval b).tv_usec ∧ (send_interval b).tv_usec < 1000000 := by
  have hP : NBNAME_REQUEST_SIZE + UDP_HEADER_SIZE + IP_HEADER_SIZE = 78 := by decide
  have hfit : packet_bits_usec (NBNAME_REQUEST_SIZE + UDP_HEADER_SIZE + IP_HEADER_SIZE)
      < 2147483648 := by decide
  obtain ⟨h1, h2, h3⟩ := send_interval_of_pos
    (NBNAME_REQUEST_SIZE + UDP_HEADER_SIZE + IP_HEADER_SIZE) b (by decide) hfit hb
  refine ⟨hP, hfit, by decide, ?_, h2, h3⟩
  obtain ⟨d, rfl⟩ := Int.eq_ofNat_of_zero_le (le_of_lt hb)
  rw [Int.cast_natCast, Rat.floor_intCast_div_natCast]
  exact h1

/-- Witness of C9 at 9600 bits per second: 65 ms between sends. -/
theorem C9_capped_interval_witness :
    (0 : Int) < 9600 ∧ send_interval 9600 = ⟨0, 65000⟩ ∧
    (send_interval 9600).tv_sec * 1000000 + (send_interval 9600).tv_usec
      = ⌊((packet_bits_usec (NBNAME_REQUEST_SIZE + UDP_HEADER_SIZE + IP_HEADER_SIZE) : Int) : ℚ)
          / ((9600 : Int) : ℚ)⌋ :=
  ⟨by decide, by decide, (C9_capped_interval 9600 (by decide)).2.2.2.1⟩

/-! ## The retransmission loop (C10) -/

/-- C10 as stated fails on the code.  Option parsing accepts `-m -2` (only a
value of 0 is refused); the loop condition `0 <= -2` is false at once, so the
scan runs no round at all, which is not `1 + (-2)` rounds. -/
theorem C10_negative_count_runs_no_round :
    parse_retransmits (-2) = some (-2) ∧
    ∃ trace, scan (fun _ est => est) (-2) 1 = some trace ∧
      trace = [] ∧ (rounds_of trace : Int) ≠ 1 + (-2) := by
  refine ⟨by decide, [], ?_, rfl, by decide⟩
  simp [scan, scan_loop]

/-- C10 as amended.  For every retransmit count `r >= 0` (the default 0, or a
positive `int` that option parsing accepts), the loop of `main` returns after
exactly `1 + r` rounds and `r` timeouts, and its last step is round `r`: after
the last round no retransmission timeout is computed or slept.  An iteration
bound of `r + 1` or more is enough for the loop to return. -/
theorem C10_rounds_and_no_final_timeout (round : Int → rtt_state → rtt_state)
    (r : Int) (extra : Nat) (h0 : 0 ≤ r) (hr : r ≤ 2147483647) :
    (r = 0 ∨ parse_retransmits r = some r) ∧
    ∃ trace, scan round r (r.toNat + 1 + extra) = some trace ∧
      (rounds_of trace : Int) = 1 + r ∧
      (timeouts_of trace : Int) = r ∧
      trace.getLast? = some (scan_event.round r) := by
  constructor
  · by_cases h : r = 0
    · exact Or.inl h
    · exact Or.inr (by simp [parse_retransmits, h])
  · obtain ⟨tr, h1, h2, h3, h4⟩ := scan_loop_run round r hr r.toNat extra 0 rtt_init []
      (le_refl 0) (by rw [Int.toNat_of_nonneg h0]; simp)
    refine ⟨tr, by simpa [scan] using h1, ?_, ?_, h4⟩
    · rw [h2]; push_cast; rw [Int.toNat_of_nonneg h0]; ring
    · rw [h3, Int.toNat_of_nonneg h0]

/-- Witness of C10 at two retransmits: three rounds, two timeouts. -/
theorem C10_rounds_and_no_final_timeout_witness :
    ((0 : Int) ≤ 2 ∧ (2 : Int) ≤ 2147483647) ∧
    ∃ trace, scan (fun _ est => est) 2 ((2 : Int).toNat + 1 + 0) = some trace ∧
      (rounds_of trace : Int) = 1 + 2 ∧
      (timeouts_of trace : Int) = 2 ∧
      trace.getLast? = some (scan_event.round 2) :=
  ⟨⟨by decide, by decide⟩,
    (C10_rounds_and_no_final_timeout (fun _ est => est) 2 0 (by decide) (by decide)).2⟩

/-! ## Lemmas on option parsing -/

theorem parse_option_error_status (c : config) (o : opt) (x : usage_exit)
    (h : parse_option c o = Except.error x) : x.status = 2 := by
  cases o with
  | t optarg =>
    simp only [parse_option, usage] at h
    split_ifs at h
    cases h; rfl
  | b optarg =>
    simp only [parse_option] at h
    split_ifs at h
  | m optarg =>
    simp only [parse_option, usage] at h
    split at h
    · cases h; rfl
    · cases h
  | unknown =>
    simp only [parse_option, usage] at h
    cases h; rfl
  | _ => simp [parse_option] at h

theorem parse_options_error_status (os : List opt) :
    ∀ (c : config) (x : usage_exit), parse_options c os = Except.error x → x.status = 2 := by
  induction os with
  | nil => intro c x h; simp [parse_options] at h
  | cons o os ih =>
    intro c x h
    simp only [parse_options] at h
    cases hp : parse_option c o with
    | error y =>
      have hy := parse_option_error_status c o y hp
      rw [hp] at h
      cases h
      exact hy
    | ok c1 =>
      rw [hp] at h
      exact ih c1 x h

theorem check_options_error_status (c : config) (x : usage_exit)
    (h : check_options c = Except.error x) : x.status = 2 := by
  unfold check_options usage at h
  split_ifs at h <;> cases h <;> rfl

theorem options_phase_error_status (opts : List opt) (x : usage_exit)
    (h : options_phase opts = Except.error x) : x.status = 2 := by
  unfold options_phase at h
  cases hp : parse_options config_init opts with
  | error y =>
    have hy := parse_options_error_status opts config_init y hp
    rw [hp] at h
    cases h
    exact hy
  | ok c =>
    rw [hp] at h
    exact check_options_error_status c x h

theorem parse_option_timeout_zero (c : config) (optarg : String) (h0 : atoi optarg = 0) :
    parse_option c (opt.t optarg) = usage ("Bad timeout value: " ++ optarg) := by
  simp [parse_option, h0]

theorem parse_option_retransmits_zero (c : config) (optarg : String)
    (h0 : atoi optarg = 0) :
    parse_option c (opt.m optarg) = usage ("Bad number of retransmits: " ++ optarg) := by
  simp [parse_option, parse_retransmits, h0]

theorem parse_options_bad_value (optarg : String) (h0 : atoi optarg = 0) (os : List opt) :
    ∀ c : config, (opt.t optarg ∈ os ∨ opt.m optarg ∈ os) →
      ∃ x, parse_options c os = Except.error x := by
  induction os with
  | nil => intro c h; simp at h
  | cons o os ih =>
    intro c h
    simp only [parse_options]
    cases hp : parse_option c o with
    | error y => exact ⟨y, rfl⟩
    | ok c1 =>
      have hne : o ≠ opt.t optarg ∧ o ≠ opt.m optarg := by
        constructor
        · intro e
          rw [e, parse_option_timeout_zero c optarg h0] at hp
          simp [usage] at hp
        · intro e
          rw [e, parse_option_retransmits_zero c optarg h0] at hp
          simp [usage] at hp
      apply ih c1
      rcases h with h | h
      · exact Or.inl ((List.mem_cons.mp h).resolve_left (fun e => hne.1 e.symm))
      · exact Or.inr ((List.mem_cons.mp h).resolve_left (fun e => hne.2 e.symm))

theorem check_options_lmhosts (c : config) (hl : c.lmhosts = true)
    (h : c.verbose = true ∨ c.hr = true) :
    ∃ x, check_options c = Except.error x := by
  unfold check_options usage
  split_ifs <;> first | exact ⟨_, rfl⟩ | skip
  rcases h with h | h <;> simp_all

/-! ## Option values and combinations (C11, C12) -/

/-- C11 as stated fails on the code.  The non-numeric bandwidth `abc` is
reported and ignored: option parsing goes on with `bandwidth = 0`.  The
negative values `-5`, `-2` and `-9600` are not zero for `atoi`, so `-t`, `-m`
and `-b` keep them and the scan goes on with them. -/
theorem C11_bandwidth_ignored_negative_kept :
    (atoi "abc" = 0 ∧ ∃ c, options_phase [opt.b "abc"] = Except.ok c ∧ c.bandwidth = 0 ∧
      c.diagnostics = ["Bad bandwidth value, ignoring it"]) ∧
    (atoi "-5" = -5 ∧ ∃ c, options_phase [opt.t "-5"] = Except.ok c ∧ c.timeout = -5) ∧
    (atoi "-2" = -2 ∧ ∃ c, options_phase [opt.m "-2"] = Except.ok c ∧ c.retransmits = -2) ∧
    (atoi "-9600" = -9600 ∧
      ∃ c, options_phase [opt.b "-9600"] = Except.ok c ∧ c.bandwidth = -9600) :=
  ⟨⟨by decide, _, rfl, rfl, rfl⟩, ⟨by decide, _, rfl, rfl⟩, ⟨by decide, _, rfl, rfl⟩,
    ⟨by decide, _, rfl, rfl⟩⟩

/-- C11 as amended.  For `-t` and `-m`, every argument that `atoi` reads as 0
(text without a leading number, or the number 0) is a fatal configuration
error: its message is printed and `main` leaves through `usage ()` with status
2, and any command line holding such an option leaves that way before the
socket is created.  For `-b` such an argument is reported (unless quiet) and
ignored: parsing goes on with `bandwidth = 0`. -/
theorem C11_unreadable_value_fatal_for_timeout_and_retransmits (c : config)
    (optarg : String) (opts : List opt) (h0 : atoi optarg = 0) :
    parse_option c (opt.t optarg) = Except.error ⟨"Bad timeout value: " ++ optarg, 2⟩ ∧
    parse_option c (opt.m optarg)
      = Except.error ⟨"Bad number of retransmits: " ++ optarg, 2⟩ ∧
    parse_option c (opt.b optarg)
      = Except.ok (err_print "Bad bandwidth value, ignoring it" { c with bandwidth := 0 }) ∧
    (opt.t optarg ∈ opts ∨ opt.m optarg ∈ opts →
      ∃ x, options_phase opts = Except.error x ∧ x.status = 2) := by
  refine ⟨parse_option_timeout_zero c optarg h0, parse_option_retransmits_zero c optarg h0,
    by simp [parse_option, h0], ?_⟩
  intro hin
  obtain ⟨x, hx⟩ := parse_options_bad_value optarg h0 opts config_init hin
  have hph : options_phase opts = Except.error x := by simp [options_phase, hx]
  exact ⟨x, hph, options_phase_error_status opts x hph⟩

/-- Witness of C11 on `-v -t abc`. -/
theorem C11_unreadable_value_fatal_for_timeout_and_retransmits_witness :
    atoi "abc" = 0 ∧
    ∃ x, options_phase [opt.v, opt.t "abc"] = Except.error x ∧ x.status = 2 :=
  ⟨by decide,
    (C11_unreadable_value_fatal_for_timeout_and_retransmits config_init "abc"
      [opt.v, opt.t "abc"] (by decide)).2.2.2 (Or.inl (by simp))⟩

/-- C12 fails on the code.  The command line `-l -s :` passes option parsing
and every combination test of lines 523-584: no test pairs `lmhosts` with
`sf`, although the usage text says that `-l` cannot be used with `-s`.  The
scan is reached and its replies go to `l_print_hostinfo`. -/
theorem C12_lmhosts_with_separator_not_rejected :
    ∃ c, options_phase [opt.l, opt.s ":"] = Except.ok c ∧
      c.lmhosts = true ∧ c.sf = some ":" ∧
      select_printer c.output_flags = printer.l_print_hostinfo true :=
  ⟨_, rfl, rfl, rfl, rfl⟩

/-! ## Lemmas on the send step -/

theorem send_step_range_paced (range : ip_range) (send_interval : timeval) (timeout : Int)
    (scanned : List Nat) (s : send_state) (tk : tick) (hr : s.targetlist = none)
    (hs : (send_step range send_interval timeout scanned s tk).sent ≠ s.sent) :
    timercmp_ge (timersub tk.current_time s.last_send_time) send_interval = true ∧
    (send_step range send_interval timeout scanned s tk).last_send_time = tk.send_time := by
  unfold send_step at hs ⊢
  simp only [hr] at hs ⊢
  by_cases hc : (s.more_to_send && tk.writable &&
      timercmp_ge (timersub tk.current_time s.last_send_time) send_interval) = true
  · simp only [hc, if_true] at hs ⊢
    have hok : timercmp_ge (timersub tk.current_time s.last_send_time) send_interval = true := by
      simp only [Bool.and_eq_true] at hc
      exact hc.2
    cases hn : next_address range s.prev_in_addr with
    | none => simp [hn] at hs
    | some a => simp [hn, hok]
  · simp [hc] at hs

theorem send_step_file_keeps_last_send_time (range : ip_range) (send_interval : timeval)
    (timeout : Int) (scanned : List Nat) (s : send_state) (tk : tick)
    (lines : List (Option Nat)) (hf : s.targetlist = some lines) :
    (send_step range send_interval timeout scanned s tk).last_send_time
      = s.last_send_time := by
  unfold send_step
  simp only [hf]
  split_ifs
  · rcases lines with _ | ⟨line, rest⟩
    · rfl
    · cases line with
      | none => rfl
      | some a => simp only; split_ifs <;> rfl
  · rfl

theorem send_step_file_exhausted (range : ip_range) (send_interval : timeval)
    (timeout : Int) (scanned : List Nat) (s : send_state) (tk : tick)
    (hf : s.targetlist = some []) :
    (send_step range send_interval timeout scanned s tk).sent = s.sent ∧
    (send_step range send_interval timeout scanned s tk).targetlist = some [] := by
  unfold send_step
  simp only [hf]
  split_ifs <;> exact ⟨rfl, by simp [hf]⟩

theorem send_steps_file_exhausted (range : ip_range) (send_interval : timeval)
    (timeout : Int) (scanned : List Nat) (tks : List tick) :
    ∀ s : send_state, s.targetlist = some [] →
      (send_steps range send_interval timeout scanned s tks).sent = s.sent := by
  induction tks with
  | nil => intro s _; rfl
  | cons tk tks ih =>
    intro s hf
    obtain ⟨h1, h2⟩ := send_step_file_exhausted range send_interval timeout scanned s tk hf
    simp only [send_steps]
    rw [ih _ h2, h1]

theorem reset_round_range_restarts (range : ip_range) (s : send_state) :
    next_address range (reset_round s).prev_in_addr = some range.start_ip ∧
    (reset_round s).more_to_send = true ∧
    (reset_round s).targetlist = s.targetlist :=
  ⟨rfl, rfl, rfl⟩

/-! ## Lemmas on the formatters -/

theorem names_loop_in_bounds (names : List nbname) (k : Nat) :
    ∀ i : Nat, i + k ≤ names.length → ∃ tr, names_loop names i k = some tr := by
  induction k with
  | zero => intro i _; exact ⟨_, rfl⟩
  | succ k ih =>
    intro i h
    obtain ⟨tr, htr⟩ := ih (i + 1) (by omega)
    cases hg : names.get? i with
    | none =>
      have := List.get?_eq_none.mp hg
      omega
    | some n =>
      rw [List.get?_eq_getElem?] at hg
      exact ⟨access.number_of_names :: access.name_entry i :: tr,
        by simp [names_loop, hg, htr]⟩

theorem guarded_formatters_skip_absent (hostinfo : nb_host_info)
    (h : hostinfo.header = none ∨ hostinfo.names = none) :
    v_print_hostinfo hostinfo = some (footer_reads hostinfo) ∧
    print_hostinfo hostinfo = some (footer_reads hostinfo) ∧
    l_print_hostinfo hostinfo = some [] ∧
    (hostinfo.footer = none → footer_reads hostinfo = []) := by
  obtain ⟨header, names, footer, is_broken⟩ := hostinfo
  have hfoot : footer = none →
      footer_reads ⟨header, names, footer, is_broken⟩ = [] := by
    intro hf
    subst hf
    rfl
  cases header with
  | none => cases names <;> exact ⟨rfl, rfl, rfl, hfoot⟩
  | some hd =>
    cases names with
    | none => exact ⟨rfl, rfl, rfl, hfoot⟩
    | some ns => simp at h

theorem guarded_formatters_return (hostinfo : nb_host_info)
    (hlen : ∀ header names, hostinfo.header = some header → hostinfo.names = some names →
      header.number_of_names ≤ names.length) :
    (∃ tr, v_print_hostinfo hostinfo = some tr) ∧
    (∃ tr, print_hostinfo hostinfo = some tr) ∧
    (∃ tr, l_print_hostinfo hostinfo = some tr) := by
  obtain ⟨header, names, footer, is_broken⟩ := hostinfo
  cases header with
  | none => exact ⟨⟨_, rfl⟩, ⟨_, rfl⟩, ⟨_, rfl⟩⟩
  | some hd =>
    cases names with
    | none => exact ⟨⟨_, rfl⟩, ⟨_, rfl⟩, ⟨_, rfl⟩⟩
    | some ns =>
      obtain ⟨tr, htr⟩ := names_loop_in_bounds ns hd.number_of_names 0
        (by have := hlen hd ns rfl rfl; omega)
      exact ⟨⟨tr ++ footer_reads ⟨some hd, some ns, footer, is_broken⟩,
          by simp [v_print_hostinfo, htr]⟩,
        ⟨tr ++ footer_reads ⟨some hd, some ns, footer, is_broken⟩,
          by simp [print_hostinfo, htr]⟩,
        ⟨tr, by simp [l_print_hostinfo, htr]⟩⟩

/-! ## Pacing, round reset and formatters (C13 - C15) -/

/-- C13 fails on the code for a target file.  With `send_interval` 65 ms
(9600 bits per second) and the loop started at 100.000000 s, the two
addresses of a file are queried at 100.070000 s and 100.070001 s, one
microsecond apart: the file branch never writes `last_send_time`, which stays
at 100.000000 s.  With a range and the same clock readings only the first
query is sent and `last_send_time` is updated. -/
theorem C13_file_queries_not_paced :
    send_interval 9600 = ⟨0, 65000⟩ ∧
    (send_steps ⟨7, 8⟩ (send_interval 9600) 1000 []
        (send_init ⟨100, 0⟩ (some [some 1, some 2]))
        [⟨true, ⟨100, 70000⟩, ⟨100, 70000⟩⟩, ⟨true, ⟨100, 70001⟩, ⟨100, 70001⟩⟩]).sent
      = [⟨⟨100, 70000⟩, 1⟩, ⟨⟨100, 70001⟩, 2⟩] ∧
    (send_steps ⟨7, 8⟩ (send_interval 9600) 1000 []
        (send_init ⟨100, 0⟩ (some [some 1, some 2]))
        [⟨true, ⟨100, 70000⟩, ⟨100, 70000⟩⟩,
         ⟨true, ⟨100, 70001⟩, ⟨100, 70001⟩⟩]).last_send_time
      = ⟨100, 0⟩ ∧
    usec_between ⟨100, 70000⟩ ⟨100, 70001⟩ = 1 ∧
    (send_steps ⟨7, 8⟩ (send_interval 9600) 1000 [] (send_init ⟨100, 0⟩ none)
        [⟨true, ⟨100, 70000⟩, ⟨100, 70000⟩⟩, ⟨true, ⟨100, 70001⟩, ⟨100, 70001⟩⟩])
      = ⟨⟨100, 70000⟩, true, some 7, none, ⟨60, 0⟩, [⟨⟨100, 70000⟩, 7⟩]⟩ := by
  refine ⟨by decide, by decide, by decide, by decide, by decide⟩

/-- C14 fails on the code for a target file.  A file with the one address 7,
which never answers (nothing is scanned), is read to its end in the first
round; `reset_round` leaves the file where it is, so in the second round the
first read is the end of the file and address 7 is not queried again.  With
the range 7..7 and the same clock readings the second round queries 7 again. -/
theorem C14_file_not_rewound :
    (send_steps ⟨7, 7⟩ ⟨0, 1⟩ 1000 [] (send_init ⟨100, 0⟩ (some [some 7]))
        [⟨true, ⟨101, 0⟩, ⟨101, 0⟩⟩, ⟨true, ⟨102, 0⟩, ⟨102, 0⟩⟩])
      = ⟨⟨100, 0⟩, false, none, some [], ⟨1, 0⟩, [⟨⟨101, 0⟩, 7⟩]⟩ ∧
    (send_steps ⟨7, 7⟩ ⟨0, 1⟩ 1000 []
        (reset_round (send_steps ⟨7, 7⟩ ⟨0, 1⟩ 1000 [] (send_init ⟨100, 0⟩ (some [some 7]))
          [⟨true, ⟨101, 0⟩, ⟨101, 0⟩⟩, ⟨true, ⟨102, 0⟩, ⟨102, 0⟩⟩]))
        [⟨true, ⟨105, 0⟩, ⟨105, 0⟩⟩, ⟨true, ⟨106, 0⟩, ⟨106, 0⟩⟩]).sent
      = [⟨⟨101, 0⟩, 7⟩] ∧
    (send_steps ⟨7, 7⟩ ⟨0, 1⟩ 1000 []
        (reset_round (send_steps ⟨7, 7⟩ ⟨0, 1⟩ 1000 [] (send_init ⟨100, 0⟩ none)
          [⟨true, ⟨101, 0⟩, ⟨101, 0⟩⟩, ⟨true, ⟨102, 0⟩, ⟨102, 0⟩⟩]))
        [⟨true, ⟨105, 0⟩, ⟨105, 0⟩⟩, ⟨true, ⟨106, 0⟩, ⟨106, 0⟩⟩]).sent
      = [⟨⟨101, 0⟩, 7⟩, ⟨⟨105, 0⟩, 7⟩] := by
  refine ⟨by decide, by decide, by decide⟩

theorem d_print_hostinfo_without_header (names : List nbname)
    (footer : Option nbname_response_footer) (is_broken : Int) :
    d_print_hostinfo ⟨none, some names, footer, is_broken⟩ = none :=
  rfl

end Nbtscan
